import Mathlib

/-!
Verification development for the fcge content-migration scripts.

The Python sources under scripts/ are shallowly embedded below: pure string
transformations become Lean functions on (lists of) characters, the
BeautifulSoup document tree becomes an inductive forest type, filesystem and
network effects become explicit oracle parameters, and the relevant parts of
the CPython standard library (urllib.parse, posixpath, pathlib filename
handling) are translated from their sources.  Unicode-only behaviours of
Python (str.lower, the unicode extent of the whitespace class) are modelled
by their ASCII restriction, which coincides with Python on the ASCII inputs
handled by these scripts.
-/

namespace FCGE

/-! ## Python string primitives (character-list level) -/

/-- ASCII approximation of the Python whitespace class used by str.strip and
the regex class \s (space, tab, newline, carriage return, vertical tab,
form feed). -/
def isPyWs (c : Char) : Bool :=
  c = ' ' || c = '\t' || c = '\n' || c = '\r' || c = '\x0b' || c = '\x0c'

def lstripPL (p : Char → Bool) (l : List Char) : List Char :=
  l.dropWhile p

def rstripPL (p : Char → Bool) (l : List Char) : List Char :=
  (l.reverse.dropWhile p).reverse

def stripPL (p : Char → Bool) (l : List Char) : List Char :=
  rstripPL p (lstripPL p l)

/-- Python str.strip() (ASCII whitespace restriction). -/
def pyStrip (s : String) : String :=
  String.mk (stripPL isPyWs s.data)

def pyLstrip (s : String) : String :=
  String.mk (lstripPL isPyWs s.data)

def pyRstrip (s : String) : String :=
  String.mk (rstripPL isPyWs s.data)

/-- Collapse every maximal run of whitespace to one space: re.sub(r"\s+", " ", s).
The boolean records whether the previous character was part of a whitespace
run already emitted as a single space. -/
def wsCollapseGo : Bool → List Char → List Char
  | _, [] => []
  | prevWs, c :: rest =>
    if isPyWs c then
      if prevWs then wsCollapseGo true rest
      else ' ' :: wsCollapseGo true rest
    else c :: wsCollapseGo false rest

def wsCollapseL (l : List Char) : List Char :=
  wsCollapseGo false l

/-- re.sub(r"\s+", " ", text).strip() — the shared first step of both
truncation helpers. -/
def pyCollapse (s : String) : String :=
  pyStrip (String.mk (wsCollapseL s.data))

/-- Python s.rsplit(" ", 1)[0]: everything before the last space, or the whole
string when it has no space. -/
def cutAtLastSpaceL (l : List Char) : List Char :=
  if l.contains ' ' then
    ((l.reverse.dropWhile (fun c => c ≠ ' ')).drop 1).reverse
  else l

def cutAtLastSpace (s : String) : String :=
  String.mk (cutAtLastSpaceL s.data)

def strTake (s : String) (n : Nat) : String :=
  String.mk (s.data.take n)

def strLen (s : String) : Nat :=
  s.data.length

/-! ## seo_audit_and_fix.strip_and_truncate and
sync_blog_single_page.make_excerpt -/

/-- strip_and_truncate from scripts/seo_audit_and_fix.py: collapse whitespace,
return unchanged when within the limit, else cut the limit-length prefix at
its last space, strip, and append an ellipsis. -/
def strip_and_truncate (text : String) (limit : Nat := 170) : String :=
  let t := pyCollapse text
  if strLen t ≤ limit then t
  else pyStrip (cutAtLastSpace (strTake t limit)) ++ "..."

/-- make_excerpt from scripts/sync_blog_single_page.py: collapse whitespace,
return unchanged when within max_len, else hard-cut to max_len - 3
characters, right-strip, and append an ellipsis. -/
def make_excerpt (text : String) (max_len : Nat := 220) : String :=
  let compact := pyCollapse text
  if strLen compact ≤ max_len then compact
  else pyRstrip (strTake compact (max_len - 3)) ++ "..."

/-- Excerpt truncation following the words of the spec claim: cut the text at
the nearest word boundary preceding the limit and append an ellipsis.  Used
only to compare the claim with the code. -/
def claimWordBoundaryCut (s : String) (limit : Nat) : String :=
  cutAtLastSpace (strTake s limit) ++ "..."

/-! ## urllib.parse (CPython 3.11) — urlsplit, urlparse, urljoin -/

/-- Characters allowed in a URL scheme after the first: letters, digits, +, -, . -/
def isSchemeChar (c : Char) : Bool :=
  c.isAlpha || c.isDigit || c = '+' || c = '-' || c = '.'

/-- The WHATWG C0-control-or-space class stripped from the front of a URL. -/
def isC0OrSpace (c : Char) : Bool :=
  c.toNat ≤ 0x20

/-- Tab, carriage return and newline are removed anywhere in a URL. -/
def removeUnsafeL (l : List Char) : List Char :=
  l.filter (fun c => c ≠ '\t' && c ≠ '\r' && c ≠ '\n')

def asciiLowerChar (c : Char) : Char :=
  if 'A' ≤ c && c ≤ 'Z' then Char.ofNat (c.toNat + 32) else c

def asciiLowerL (l : List Char) : List Char :=
  l.map asciiLowerChar

def asciiLower (s : String) : String :=
  String.mk (asciiLowerL s.data)

/-- Structural prefix test (String.startsWith). -/
def startsWithL : List Char → List Char → Bool
  | _, [] => true
  | [], _ :: _ => false
  | c :: cs, p :: ps => c = p && startsWithL cs ps

def strStarts (s pre : String) : Bool :=
  startsWithL s.data pre.data

/-- Python str.split(sep) for a one-character separator (keeps empty pieces,
and the split of the empty string is one empty piece). -/
def splitOnCharL (sep : Char) : List Char → List (List Char)
  | [] => [[]]
  | c :: rest =>
    let r := splitOnCharL sep rest
    if c = sep then [] :: r
    else
      match r with
      | h :: t => (c :: h) :: t
      | [] => [[c]]

def pySplitChar (sep : Char) (s : String) : List String :=
  (splitOnCharL sep s.data).map String.mk

/-- Python url.split(sep, 1) for a single-character separator, on the first
occurrence; none when the separator does not occur. -/
def splitFirstL (sep : Char) : List Char → Option (List Char × List Char)
  | [] => none
  | c :: rest =>
    if c = sep then some ([], rest)
    else match splitFirstL sep rest with
      | some (a, b) => some (c :: a, b)
      | none => none

structure SplitResult where
  scheme : List Char
  netloc : List Char
  path : List Char
  query : List Char
  frag : List Char
deriving DecidableEq, Repr

/-- Scheme detection of urlsplit: an initial ASCII letter followed by scheme
characters up to the first colon. -/
def splitScheme (dflt : List Char) (url : List Char) : List Char × List Char :=
  match List.findIdx? (fun c => c = ':') url with
  | none => (dflt, url)
  | some i =>
    if 0 < i ∧ ((match url.head? with
                 | some c => c.isAlpha
                 | none => false) : Bool)
       ∧ (url.take i).all isSchemeChar then
      (asciiLowerL (url.take i), url.drop (i + 1))
    else (dflt, url)

/-- _splitnetloc: the netloc runs from position 2 to the first of /, ?, #. -/
def splitNetloc (l : List Char) : List Char × List Char :=
  (l.takeWhile (fun c => c ≠ '/' && c ≠ '?' && c ≠ '#'),
   l.dropWhile (fun c => c ≠ '/' && c ≠ '?' && c ≠ '#'))

/-- urlsplit from CPython 3.11 urllib/parse.py (validation errors for
malformed bracketed hosts are not modelled; such URLs do not occur here). -/
def urlsplitL (url0 : List Char) (dfltScheme : List Char) : SplitResult :=
  let url1 := removeUnsafeL (lstripPL isC0OrSpace url0)
  let sp := splitScheme dfltScheme url1
  let nl : List Char × List Char :=
    match sp.2 with
    | '/' :: '/' :: rest => splitNetloc rest
    | _ => ([], sp.2)
  let fr : List Char × List Char :=
    match splitFirstL '#' nl.2 with
    | some ab => ab
    | none => (nl.2, [])
  let pq : List Char × List Char :=
    match splitFirstL '?' fr.1 with
    | some ab => ab
    | none => (fr.1, [])
  ⟨sp.1, nl.1, pq.1, pq.2, fr.2⟩

/-- Schemes for which urlparse splits ;-parameters off the path. -/
def usesParams : List (List Char) :=
  ["", "ftp", "hdl", "prospero", "http", "imap", "https", "shttp", "rtsp",
   "rtsps", "rtspu", "sip", "sips", "mms", "sftp", "tel"].map String.data

/-- _splitparams: parameters after ; in the last path segment. -/
def splitParamsL (l : List Char) : List Char × List Char :=
  if l.contains '/' then
    let tail := (l.reverse.takeWhile (fun c => c ≠ '/')).reverse
    match splitFirstL ';' tail with
    | none => (l, [])
    | some (a, b) => (l.take (l.length - tail.length) ++ a, b)
  else
    match splitFirstL ';' l with
    | none => (l, [])
    | some (a, b) => (a, b)

structure ParseResult where
  scheme : String
  netloc : String
  path : String
  params : String
  query : String
  frag : String
deriving DecidableEq, Repr

/-- urlparse: urlsplit plus parameter splitting on the path. -/
def urlparseWith (url : String) (dfltScheme : String) : ParseResult :=
  let s := urlsplitL url.data dfltScheme.data
  let pp : List Char × List Char :=
    if usesParams.contains s.scheme ∧ s.path.contains ';' then splitParamsL s.path
    else (s.path, [])
  ⟨String.mk s.scheme, String.mk s.netloc, String.mk pp.1,
   String.mk pp.2, String.mk s.query, String.mk s.frag⟩

def urlparse (url : String) : ParseResult :=
  urlparseWith url ""

def usesRelative : List String :=
  ["", "ftp", "http", "gopher", "nntp", "imap", "wais", "file", "https",
   "shttp", "mms", "prospero", "rtsp", "rtsps", "rtspu", "sftp", "svn",
   "svn+ssh", "ws", "wss"]

def usesNetloc : List String :=
  ["", "ftp", "http", "gopher", "nntp", "telnet", "imap", "wais", "file",
   "mms", "https", "shttp", "snews", "prospero", "rtsp", "rtsps", "rtspu",
   "rsync", "svn", "svn+ssh", "sftp", "nfs", "git", "git+ssh", "ws", "wss"]

/-- urlunsplit from CPython urllib/parse.py. -/
def urlunsplit (scheme netloc url query frag : String) : String :=
  let url1 :=
    if netloc ≠ "" ∨ (scheme ≠ "" ∧ usesNetloc.contains scheme ∧
        ¬ strStarts url "//") then
      let u := if url ≠ "" ∧ ¬ strStarts url "/" then "/" ++ url else url
      "//" ++ netloc ++ u
    else url
  let url2 := if scheme ≠ "" then scheme ++ ":" ++ url1 else url1
  let url3 := if query ≠ "" then url2 ++ "?" ++ query else url2
  if frag ≠ "" then url3 ++ "#" ++ frag else url3

/-- urlunparse: reattach path parameters, then urlunsplit. -/
def urlunparse (scheme netloc url params query frag : String) : String :=
  let u := if params ≠ "" then url ++ ";" ++ params else url
  urlunsplit scheme netloc u query frag

/-- The segment-resolution loop of urljoin. -/
def resolveSegs (segs : List String) : List String :=
  segs.foldl
    (fun acc seg =>
      if seg = ".." then acc.dropLast
      else if seg = "." then acc
      else acc ++ [seg])
    []

def strJoinSep (sep : String) : List String → String
  | [] => ""
  | [x] => x
  | x :: rest => x ++ sep ++ strJoinSep sep rest

/-- urljoin from CPython 3.11 urllib/parse.py. -/
def urljoin (base url : String) : String :=
  if base = "" then url
  else if url = "" then base
  else
    let b := urlparseWith base ""
    let r := urlparseWith url b.scheme
    if r.scheme ≠ b.scheme ∨ ¬ usesRelative.contains r.scheme then url
    else
      let netloc0 :=
        if usesNetloc.contains r.scheme ∧ r.netloc ≠ "" then none
        else some (if r.netloc ≠ "" then r.netloc else b.netloc)
      match netloc0 with
      | none => urlunparse r.scheme r.netloc r.path r.params r.query r.frag
      | some netloc =>
        if r.path = "" ∧ r.params = "" then
          let query := if r.query = "" then b.query else r.query
          urlunparse r.scheme netloc b.path b.params query r.frag
        else
          let baseParts0 := pySplitChar '/' b.path
          let baseParts :=
            if baseParts0.getLast? ≠ some "" then baseParts0.dropLast
            else baseParts0
          let segments :=
            if strStarts r.path "/" then pySplitChar '/' r.path
            else
              let segs := baseParts ++ pySplitChar '/' r.path
              match segs with
              | [] => []
              | [x] => [x]
              | x :: rest =>
                x :: ((rest.dropLast.filter (fun s => s ≠ "")) ++
                      (match rest.getLast? with
                       | some y => [y]
                       | none => []))
          let resolved0 := resolveSegs segments
          let resolved :=
            if segments.getLast? = some "." ∨ segments.getLast? = some ".." then
              resolved0 ++ [""]
            else resolved0
          let path :=
            if strJoinSep "/" resolved = "" then "/"
            else strJoinSep "/" resolved
          urlunparse r.scheme netloc path r.params r.query r.frag

/-! ## posixpath.normpath and pathlib filename components -/

/-- The component loop of posixpath.normpath. -/
def normpathComps (initialSlashes : Bool) (comps : List String) : List String :=
  comps.foldl
    (fun acc comp =>
      if comp = "" ∨ comp = "." then acc
      else if comp ≠ ".." ∨ (¬ initialSlashes ∧ acc = []) ∨
              (acc ≠ [] ∧ acc.getLast? = some "..") then
        acc ++ [comp]
      else if acc ≠ [] then acc.dropLast
      else acc)
    []

/-- posixpath.normpath from CPython. -/
def posixNormpath (path : String) : String :=
  if path = "" then "."
  else
    let initialSlashes := strStarts path "/"
    let slashes :=
      if initialSlashes ∧ strStarts path "//" ∧ ¬ strStarts path "///"
      then 2 else if initialSlashes then 1 else 0
    let comps := normpathComps initialSlashes (pySplitChar '/' path)
    let joined := strJoinSep "/" comps
    let out := String.mk (List.replicate slashes '/') ++ joined
    if out = "" then "." else out

/-- PurePosixPath(p).name: the last component, with "", "." and ".."-free
normalisation as in pathlib (name of "." and of "" is ""). -/
def pyPathName (p : String) : String :=
  let comps := (pySplitChar '/' p).filter (fun c => c ≠ "" ∧ c ≠ ".")
  match comps.getLast? with
  | some last => last
  | none => ""

/-- PurePosixPath suffix: the final dot-extension of the name, empty when the
name starts with its only dot or ends with a dot. -/
def pyPathSuffix (name : String) : String :=
  match List.findIdx? (fun c => c = '.') name.data.reverse with
  | none => ""
  | some rev =>
    let i := name.data.length - 1 - rev
    if 0 < i ∧ i < name.data.length - 1 then String.mk (name.data.drop i)
    else ""

/-- PurePosixPath stem: the name minus its suffix. -/
def pyPathStem (name : String) : String :=
  String.mk (name.data.take (name.data.length - (pyPathSuffix name).data.length))

/-! ## normalize_src from scripts/normalize_posts_content.py -/

/-- Case-insensitive letter or digit, the class [a-z0-9] under re.IGNORECASE. -/
def isAlnumCI (c : Char) : Bool :=
  c.isAlpha || c.isDigit

/-- Split a filename at the final dot when the regex lookahead
(?=\.[a-z0-9]+$) can succeed there: the tail after the last dot must be a
non-empty run of letters and digits.  Returns the stem before that dot and
the extension including the dot. -/
def extSplit (l : List Char) : Option (List Char × List Char) :=
  match List.findIdx? (fun c => c = '.') l.reverse with
  | none => none
  | some rev =>
    let i := l.length - 1 - rev
    let tail := l.drop (i + 1)
    if tail ≠ [] ∧ tail.all isAlnumCI then some (l.take i, l.drop i)
    else none

/-- Does a character list match \d+x\d+ exactly (x case-insensitive)? -/
def matchesWxH (l : List Char) : Bool :=
  let d1 := l.takeWhile Char.isDigit
  match l.drop d1.length with
  | x :: rest =>
    d1 ≠ [] && (x = 'x' || x = 'X') && rest ≠ [] && rest.all Char.isDigit
  | [] => false

/-- Leftmost index i in the stem such that stem[i] is a hyphen and the rest of
the stem satisfies the given matcher; the regex match must end exactly at
the final dot, so the candidate runs to the end of the stem. -/
def leftmostHyphenMatch (p : List Char → Bool) : List Char → Option Nat
  | [] => none
  | c :: rest =>
    if c = '-' ∧ p rest then some 0
    else match leftmostHyphenMatch p rest with
      | some i => some (i + 1)
      | none => none

/-- One re.sub of a -suffix pattern anchored before the final extension:
SIZE_SUFFIX_RE, SCALED_SUFFIX_RE and HASH_SUFFIX_RE all have this shape. -/
def stripSuffixBy (p : List Char → Bool) (filename : List Char) : List Char :=
  match extSplit filename with
  | none => filename
  | some (stem, ext) =>
    match leftmostHyphenMatch p stem with
    | none => filename
    | some i => stem.take i ++ ext

/-- SIZE_SUFFIX_RE = -\d+x\d+(?=\.[a-z0-9]+$), IGNORECASE. -/
def stripSizeSuffix (filename : List Char) : List Char :=
  stripSuffixBy matchesWxH filename

def ciEq (a b : List Char) : Bool :=
  asciiLowerL a = asciiLowerL b

/-- SCALED_SUFFIX_RE = -(scaled|rotated)(?=\.[a-z0-9]+$), IGNORECASE. -/
def stripScaledSuffix (filename : List Char) : List Char :=
  stripSuffixBy
    (fun rest => ciEq rest "scaled".data || ciEq rest "rotated".data)
    filename

/-- HASH_SUFFIX_RE = -[a-z0-9]{12,}(?=\.[a-z0-9]+$), IGNORECASE. -/
def stripHashSuffix (filename : List Char) : List Char :=
  stripSuffixBy
    (fun rest => rest.length ≥ 12 && rest.all isAlnumCI)
    filename

def strStartsCI5 (l : List Char) (pre : List Char) : Bool :=
  (asciiLowerL l).take pre.length = pre

/-- Python while loops stripping leading "./" and "../" occurrences. -/
def dropDotSlashes : List Char → List Char
  | '.' :: '/' :: rest => dropDotSlashes rest
  | l => l

def dropDotDotSlashes : List Char → List Char
  | '.' :: '.' :: '/' :: rest => dropDotDotSlashes rest
  | l => l

/-- normalize_src from scripts/normalize_posts_content.py: canonical
deduplication key for an asset reference. -/
def normalize_src (src : String) : String :=
  if src = "" then ""
  else
    let raw := pyStrip src
    if strStarts raw "data:" then ""
    else
      let parsed := urlparse raw
      let path0 := if parsed.scheme ≠ "" ∨ parsed.netloc ≠ "" then parsed.path else raw
      let path1 :=
        match splitFirstL '?' path0.data with
        | some (a, _) => a
        | none => path0.data
      let path2 :=
        match splitFirstL '#' path1 with
        | some (a, _) => a
        | none => path1
      let path3 := path2.map (fun c => if c = '\\' then '/' else c)
      let path4 := dropDotDotSlashes (dropDotSlashes path3)
      let path5 := path4.dropWhile (fun c => c = '/')
      let path6 :=
        if strStartsCI5 path5 "fcge/".data then path5.drop 5 else path5
      let path7 := posixNormpath (String.mk path6)
      let path8 := if path7 = "." then "" else path7
      let path9 :=
        if path8 ≠ "" then
          let parts := pySplitChar '/' path8
          match parts.getLast? with
          | some filename =>
            let f1 := stripSizeSuffix filename.data
            let f2 := stripScaledSuffix f1
            let f3 := stripHashSuffix f2
            strJoinSep "/" (parts.dropLast ++ [String.mk f3])
          | none => path8
        else path8
      asciiLower path9

/-! ## Document-tree model (BeautifulSoup fragments)

A parsed HTML fragment is a forest of element and text nodes.  Attribute
lists behave like BeautifulSoup attribute dictionaries restricted to the
operations the scripts use: first-match lookup, replace-or-append update. -/

inductive Node where
  | elem (tag : String) (attrs : List (String × String)) (children : List Node)
  | text (s : String)
deriving Repr

def getAttr (attrs : List (String × String)) (k : String) : Option String :=
  attrs.lookup k

def getAttrD (attrs : List (String × String)) (k d : String) : String :=
  (attrs.lookup k).getD d

def hasAttrKey (attrs : List (String × String)) (k : String) : Bool :=
  (attrs.lookup k).isSome

def setAttr : List (String × String) → String → String → List (String × String)
  | [], k, v => [(k, v)]
  | (k0, v0) :: rest, k, v =>
    if k0 = k then (k, v) :: rest else (k0, v0) :: setAttr rest k v

/-- is_blank from scripts/normalize_posts_content.py: a text node is blank
when it strips to nothing; element nodes are never blank. -/
def is_blank : Node → Bool
  | .text s => pyStrip s = ""
  | .elem _ _ _ => false

def countMeaningful (cs : List Node) : Nat :=
  (cs.filter (fun n => ! is_blank n)).length

/-- Python-style whitespace split (str.split with no argument, as used by
BeautifulSoup for multi-valued attributes such as class and rel). -/
def splitWsAux : List Char → List Char → List String
  | [], acc => if acc = [] then [] else [String.mk acc.reverse]
  | c :: rest, acc =>
    if isPyWs c then
      if acc = [] then splitWsAux rest []
      else String.mk acc.reverse :: splitWsAux rest []
    else splitWsAux rest (c :: acc)

def splitWs (s : String) : List String :=
  splitWsAux s.data []

/-! ## normalize_post from scripts/normalize_posts_content.py

The first loop over list(iter_images(soup)) removes cover repeats and
duplicates via remove_image, whose cleanup_container decomposes an a or
figure parent exactly when, at the moment an img is removed from it, all of
its remaining contents are blank.  In the traversal below the third result
component reports to the parent whether that cleanup fired: at each direct
img removal the processed survivors so far (preBlank) and the still raw
following siblings must all be blank. -/

def stripGo (coverNorm : String) (seen : List String) (preBlank : Bool) :
    List Node → List Node × List String × Bool
  | [] => ([], seen, false)
  | .text s :: rest =>
    let r := stripGo coverNorm seen (preBlank && (pyStrip s = "")) rest
    (.text s :: r.1, r.2.1, r.2.2)
  | .elem t a ch :: rest =>
    if t = "img" then
      if normalize_src (getAttrD a "src" "") = "" then
        let r := stripGo coverNorm seen false rest
        (.elem t a ch :: r.1, r.2.1, r.2.2)
      else if coverNorm ≠ "" ∧ normalize_src (getAttrD a "src" "") = coverNorm then
        let r := stripGo coverNorm seen preBlank rest
        (r.1, r.2.1, (preBlank && rest.all is_blank) || r.2.2)
      else if seen.contains (normalize_src (getAttrD a "src" "")) then
        let r := stripGo coverNorm seen preBlank rest
        (r.1, r.2.1, (preBlank && rest.all is_blank) || r.2.2)
      else
        let r := stripGo coverNorm (seen ++ [normalize_src (getAttrD a "src" "")]) false rest
        (.elem t a ch :: r.1, r.2.1, r.2.2)
    else
      let r := stripGo coverNorm seen true ch
      if r.2.2 && (t = "a" || t = "figure") then
        stripGo coverNorm r.2.1 preBlank rest
      else
        let r2 := stripGo coverNorm r.2.1 false rest
        (.elem t a r.1 :: r2.1, r2.2.1, r2.2.2)
termination_by cs => sizeOf cs

/-- The a-or-figure singleton test of wrap_image: the parent anchor has
exactly one meaningful child and it is the img being wrapped. -/
def aSingleImg (cs : List Node) : Bool :=
  match cs.filter (fun n => ! is_blank n) with
  | [Node.elem t _ _] => t = "img"
  | _ => false

def setLazyAttrs (a : List (String × String)) : List (String × String) :=
  setAttr (setAttr a "loading" "lazy") "decoding" "async"

/-- cleanup of the figure class list in wrap_image: append post-figure when
missing. -/
def addPostFigureClass (attrs : List (String × String)) : List (String × String) :=
  match attrs.lookup "class" with
  | none => setAttr attrs "class" "post-figure"
  | some v =>
    let classes := splitWs v
    if classes.contains "post-figure" then attrs
    else setAttr attrs "class" (strJoinSep " " (classes ++ ["post-figure"]))

/-- Second loop of normalize_post: set loading and decoding on every img and
apply wrap_image.  The tag t is the enclosing element of the processed
child list and mcount its meaningful-children count (which wrap_image reads
when the enclosing element is an anchor); the boolean result tells the
caller that a direct wrap target had this element as its figure parent, so
the post-figure class must be added to it. -/
def wrapGo (t : String) (mcount : Nat) : List Node → List Node × Bool
  | [] => ([], false)
  | .text s :: rest =>
    let r := wrapGo t mcount rest
    (.text s :: r.1, r.2)
  | .elem ct ca cch :: rest =>
    if ct = "img" then
      let i' := Node.elem ct (setLazyAttrs ca) cch
      let r := wrapGo t mcount rest
      if t = "a" ∧ mcount = 1 then
        (i' :: r.1, r.2)
      else if t = "figure" then
        (i' :: r.1, true)
      else
        (Node.elem "figure" [("class", "post-figure")] [i'] :: r.1, r.2)
    else
      let rc := wrapGo ct (countMeaningful cch) cch
      let c' := Node.elem ct (if rc.2 then addPostFigureClass ca else ca) rc.1
      let r := wrapGo t mcount rest
      if ct = "a" ∧ aSingleImg cch then
        if t = "figure" then
          (c' :: r.1, true)
        else
          (Node.elem "figure" [("class", "post-figure")] [c'] :: r.1, r.2)
      else
        (c' :: r.1, r.2)
termination_by cs => sizeOf cs

/-- Final loop of normalize_post: every h1 in the content becomes an h3. -/
def h1ToH3 : List Node → List Node
  | [] => []
  | .text s :: rest => .text s :: h1ToH3 rest
  | .elem t a ch :: rest =>
    .elem (if t = "h1" then "h3" else t) a (h1ToH3 ch) :: h1ToH3 rest
termination_by cs => sizeOf cs

/-- The contentHtml transformation of normalize_post (the JSON envelope,
warnings and BeautifulSoup round-trip are not modelled): remove cover
repeats and duplicate images, wrap remaining images, demote h1 to h3. -/
def normalize_post_content (cover : String) (cs : List Node) : List Node :=
  let coverNorm := normalize_src cover
  let cs1 := (stripGo coverNorm [] true cs).1
  let cs2 := (wrapGo "[document]" (countMeaningful cs1) cs1).1
  h1ToH3 cs2

/-- All img src attributes of a forest in document (pre-)order, the result of
iterating soup.find_all("img") and reading get("src", ""). -/
def imgSrcsF : List Node → List String
  | [] => []
  | .text _ :: rest => imgSrcsF rest
  | .elem t a ch :: rest =>
    (if t = "img" then [getAttrD a "src" ""] else []) ++ imgSrcsF ch ++ imgSrcsF rest
termination_by cs => sizeOf cs

/-- html.parser never nests anything below an img (void element); the claims
about normalize_post are stated for such forests. -/
def imgLeafF : List Node → Bool
  | [] => true
  | .text _ :: rest => imgLeafF rest
  | .elem t _ ch :: rest =>
    (t ≠ "img" || ch.isEmpty) && imgLeafF ch && imgLeafF rest
termination_by cs => sizeOf cs

/-- Normalised keys of the images of a forest, ignoring images whose key is
empty (normalize_post skips those). -/
def keptNorms (cs : List Node) : List String :=
  ((imgSrcsF cs).map normalize_src).filter (fun n => n ≠ "")

theorem lookup_setAttr_ne (a : List (String × String)) (k k' v : String)
    (h : k' ≠ k) : (setAttr a k v).lookup k' = a.lookup k' := by
  have hb : (k' == k) = false := beq_eq_false_iff_ne.mpr h
  induction a with
  | nil => simp [setAttr, List.lookup, hb]
  | cons hd tl ih =>
    obtain ⟨k0, v0⟩ := hd
    by_cases hk : k0 = k
    · subst hk
      simp [setAttr, List.lookup, hb]
    · simp [setAttr, hk, List.lookup, ih]

theorem getAttrD_setLazy (a : List (String × String)) :
    getAttrD (setLazyAttrs a) "src" "" = getAttrD a "src" "" := by
  unfold setLazyAttrs getAttrD
  rw [lookup_setAttr_ne _ _ _ _ (by decide), lookup_setAttr_ne _ _ _ _ (by decide)]

theorem imgSrcsF_append (a b : List Node) :
    imgSrcsF (a ++ b) = imgSrcsF a ++ imgSrcsF b := by
  induction a with
  | nil => simp [imgSrcsF]
  | cons hd tl ih => cases hd <;> simp_all [imgSrcsF]

theorem keptNorms_append (a b : List Node) :
    keptNorms (a ++ b) = keptNorms a ++ keptNorms b := by
  simp [keptNorms, imgSrcsF_append, List.filter_append]

/-- The wrapping loop rewrites attributes and inserts figure wrappers but
leaves the list of img src values unchanged. -/
theorem imgSrcsF_wrapGo (t : String) (mcount : Nat) (cs : List Node) :
    imgSrcsF (wrapGo t mcount cs).1 = imgSrcsF cs := by
  induction t, mcount, cs using wrapGo.induct <;>
    simp_all [wrapGo, imgSrcsF, getAttrD_setLazy] <;>
    split_ifs <;> simp_all [imgSrcsF, getAttrD_setLazy]

/-- Demoting h1 headings to h3 leaves the img src list unchanged. -/
theorem imgSrcsF_h1ToH3 (cs : List Node) :
    imgSrcsF (h1ToH3 cs) = imgSrcsF cs := by
  induction cs using h1ToH3.induct with
  | case1 => simp [h1ToH3, imgSrcsF]
  | case2 s rest ih => simp [h1ToH3, imgSrcsF, ih]
  | case3 tg a ch rest ihc ih =>
    by_cases h : tg = "h1" <;> simp [h1ToH3, h, imgSrcsF, ihc, ih]

theorem keptNorms_nil : keptNorms [] = [] := by
  simp [keptNorms, imgSrcsF]

theorem keptNorms_cons_text (s : String) (f : List Node) :
    keptNorms (.text s :: f) = keptNorms f := by
  simp [keptNorms, imgSrcsF]

theorem keptNorms_cons_elem_ne (t : String) (a : List (String × String))
    (ch f : List Node) (h : t ≠ "img") :
    keptNorms (.elem t a ch :: f) = keptNorms ch ++ keptNorms f := by
  simp [keptNorms, imgSrcsF, h, List.filter_append]

theorem keptNorms_cons_img (a : List (String × String)) (ch f : List Node) :
    keptNorms (.elem "img" a ch :: f) =
      (if normalize_src (getAttrD a "src" "") = "" then []
       else [normalize_src (getAttrD a "src" "")]) ++ keptNorms ch ++ keptNorms f := by
  by_cases h : normalize_src (getAttrD a "src" "") = "" <;>
    simp [keptNorms, imgSrcsF, h, List.filter_append]

/-- Invariant of the image-removal loop of normalize_post: the seen set only
grows, and the surviving images have pairwise distinct non-empty normalised
keys, all fresh with respect to the incoming seen set, recorded in the
outgoing seen set, and different from the cover key. -/
theorem stripGo_invariant (coverNorm : String) (seen : List String)
    (preBlank : Bool) (cs : List Node) (hleaf : imgLeafF cs = true) :
    (∀ x ∈ seen, x ∈ (stripGo coverNorm seen preBlank cs).2.1) ∧
    (keptNorms (stripGo coverNorm seen preBlank cs).1).Nodup ∧
    (∀ n ∈ keptNorms (stripGo coverNorm seen preBlank cs).1,
      n ∉ seen ∧ n ∈ (stripGo coverNorm seen preBlank cs).2.1 ∧ n ≠ coverNorm) := by
  induction seen, preBlank, cs using stripGo.induct coverNorm with
  | case1 seen preBlank =>
    simp [stripGo, keptNorms, imgSrcsF]
  | case2 seen preBlank s rest ih =>
    have hrest : imgLeafF rest = true := by simpa [imgLeafF] using hleaf
    obtain ⟨m1, m2, m3⟩ := ih hrest
    refine ⟨?_, ?_, ?_⟩
    · simpa [stripGo] using m1
    · simpa [stripGo, keptNorms_cons_text] using m2
    · simpa [stripGo, keptNorms_cons_text] using m3
  | case3 seen preBlank a ch rest hn ih =>
    have h3 := hleaf
    simp only [imgLeafF, Bool.and_eq_true, Bool.or_eq_true, decide_eq_true_eq] at h3
    obtain ⟨⟨hch0, -⟩, hrest⟩ := h3
    have hch : ch = [] := by
      rcases hch0 with h | h
      · exact absurd rfl h
      · exact List.isEmpty_iff.mp h
    subst hch
    obtain ⟨m1, m2, m3⟩ := ih hrest
    refine ⟨?_, ?_, ?_⟩
    · simpa [stripGo, hn] using m1
    · simpa [stripGo, hn, keptNorms_cons_img, keptNorms_nil] using m2
    · simpa [stripGo, hn, keptNorms_cons_img, keptNorms_nil] using m3
  | case4 seen preBlank a ch rest hn hcov ih =>
    have h3 := hleaf
    simp only [imgLeafF, Bool.and_eq_true, Bool.or_eq_true, decide_eq_true_eq] at h3
    obtain ⟨-, hrest⟩ := h3
    obtain ⟨m1, m2, m3⟩ := ih hrest
    refine ⟨?_, ?_, ?_⟩
    · simpa [stripGo, hn, hcov] using m1
    · simpa [stripGo, hn, hcov] using m2
    · simpa [stripGo, hn, hcov] using m3
  | case5 seen preBlank a ch rest hn hcov hseen ih =>
    have h3 := hleaf
    simp only [imgLeafF, Bool.and_eq_true, Bool.or_eq_true, decide_eq_true_eq] at h3
    obtain ⟨-, hrest⟩ := h3
    have hseenP : normalize_src (getAttrD a "src" "") ∈ seen := by
      simpa using hseen
    obtain ⟨m1, m2, m3⟩ := ih hrest
    refine ⟨?_, ?_, ?_⟩
    · simpa [stripGo, hn, hcov, hseenP] using m1
    · simpa [stripGo, hn, hcov, hseenP] using m2
    · simpa [stripGo, hn, hcov, hseenP] using m3
  | case6 seen preBlank a ch rest hn hcov hseen ih =>
    have h3 := hleaf
    simp only [imgLeafF, Bool.and_eq_true, Bool.or_eq_true, decide_eq_true_eq] at h3
    obtain ⟨⟨hch0, -⟩, hrest⟩ := h3
    have hch : ch = [] := by
      rcases hch0 with h | h
      · exact absurd rfl h
      · exact List.isEmpty_iff.mp h
    subst hch
    obtain ⟨m1, m2, m3⟩ := ih hrest
    have hnm : normalize_src (getAttrD a "src" "") ∉ seen := by
      simpa using hseen
    have hncov : normalize_src (getAttrD a "src" "") ≠ coverNorm := by
      rcases not_and_or.mp hcov with h | h
      · intro he
        exact hn (he.trans (not_not.mp h))
      · exact h
    have hself : normalize_src (getAttrD a "src" "") ∈
        seen ++ [normalize_src (getAttrD a "src" "")] := by simp
    refine ⟨?_, ?_, ?_⟩
    · intro x hx
      have := m1 x (List.mem_append_left _ hx)
      simpa [stripGo, hn, hcov, hnm] using this
    · have hfresh : normalize_src (getAttrD a "src" "") ∉
          keptNorms (stripGo coverNorm
            (seen ++ [normalize_src (getAttrD a "src" "")]) false rest).1 := by
        intro hmem
        exact (m3 _ hmem).1 hself
      simpa [stripGo, hn, hcov, hnm, keptNorms_cons_img, keptNorms_nil,
        List.nodup_cons] using ⟨hfresh, m2⟩
    · intro n hn'
      rw [show (stripGo coverNorm seen preBlank
            (Node.elem "img" a [] :: rest)).2.1 =
          (stripGo coverNorm (seen ++ [normalize_src (getAttrD a "src" "")])
            false rest).2.1 by simp [stripGo, hn, hcov, hnm]]
      have hn'' : n = normalize_src (getAttrD a "src" "") ∨
          n ∈ keptNorms (stripGo coverNorm
            (seen ++ [normalize_src (getAttrD a "src" "")]) false rest).1 := by
        simpa [stripGo, hn, hcov, hnm, keptNorms_cons_img, keptNorms_nil] using hn'
      rcases hn'' with rfl | hmem
      · exact ⟨hnm, m1 _ hself, hncov⟩
      · obtain ⟨q1, q2, q3⟩ := m3 n hmem
        exact ⟨fun hx => q1 (List.mem_append_left _ hx), q2, q3⟩
  | case7 seen preBlank t a ch rest ht r hflag ihc ihr =>
    have hflag' : ((stripGo coverNorm seen true ch).2.2 &&
        (decide (t = "a") || decide (t = "figure"))) = true := hflag
    clear hflag
    have h3 := hleaf
    simp only [imgLeafF, Bool.and_eq_true, Bool.or_eq_true, decide_eq_true_eq] at h3
    obtain ⟨⟨-, hch⟩, hrest⟩ := h3
    obtain ⟨c1, c2, c3⟩ := ihc hch
    obtain ⟨r1, r2, r3⟩ := ihr hrest
    refine ⟨?_, ?_, ?_⟩
    · intro x hx
      have := r1 x (c1 x hx)
      simpa [stripGo, ht, hflag'] using this
    · simpa [stripGo, ht, hflag'] using r2
    · intro n hn'
      have hmem : n ∈ keptNorms (stripGo coverNorm
          (stripGo coverNorm seen true ch).2.1 preBlank rest).1 := by
        simpa [stripGo, ht, hflag'] using hn'
      obtain ⟨q1, q2, q3⟩ := r3 n hmem
      refine ⟨fun hx => q1 (c1 n hx), ?_, q3⟩
      simpa [stripGo, ht, hflag'] using q2
  | case8 seen preBlank t a ch rest ht r hflag ihc ihr =>
    have hflag' : ¬ ((stripGo coverNorm seen true ch).2.2 &&
        (decide (t = "a") || decide (t = "figure"))) = true := hflag
    clear hflag
    have h3 := hleaf
    simp only [imgLeafF, Bool.and_eq_true, Bool.or_eq_true, decide_eq_true_eq] at h3
    obtain ⟨⟨-, hch⟩, hrest⟩ := h3
    obtain ⟨c1, c2, c3⟩ := ihc hch
    obtain ⟨r1, r2, r3⟩ := ihr hrest
    have hsplit : keptNorms (stripGo coverNorm seen preBlank
        (Node.elem t a ch :: rest)).1 =
        keptNorms (stripGo coverNorm seen true ch).1 ++
        keptNorms (stripGo coverNorm
          (stripGo coverNorm seen true ch).2.1 false rest).1 := by
      simp [stripGo, ht, hflag', keptNorms_cons_elem_ne _ _ _ _ ht]
    have hout : (stripGo coverNorm seen preBlank
        (Node.elem t a ch :: rest)).2.1 =
        (stripGo coverNorm (stripGo coverNorm seen true ch).2.1 false rest).2.1 := by
      simp [stripGo, ht, hflag']
    refine ⟨?_, ?_, ?_⟩
    · intro x hx
      rw [hout]
      exact r1 x (c1 x hx)
    · rw [hsplit]
      refine List.Nodup.append c2 r2 ?_
      intro n hnc hnr
      exact (r3 n hnr).1 (c3 n hnc).2.1
    · intro n hn'
      rw [hsplit] at hn'
      rw [hout]
      rcases List.mem_append.mp hn' with hmem | hmem
      · obtain ⟨q1, q2, q3⟩ := c3 n hmem
        exact ⟨q1, r1 n q2, q3⟩
      · obtain ⟨q1, q2, q3⟩ := r3 n hmem
        exact ⟨fun hx => q1 (c1 n hx), q2, q3⟩

theorem keptNorms_congr {a b : List Node} (h : imgSrcsF a = imgSrcsF b) :
    keptNorms a = keptNorms b := by
  unfold keptNorms
  rw [h]

theorem imgSrcsF_normalize_post_content (cover : String) (cs : List Node) :
    imgSrcsF (normalize_post_content cover cs) =
      imgSrcsF (stripGo (normalize_src cover) [] true cs).1 := by
  unfold normalize_post_content
  rw [imgSrcsF_h1ToH3, imgSrcsF_wrapGo]

/-- C1: for every article processed by normalize_post, among the images of the
resulting body whose src has a non-empty normalized path, no path equals the
cover image's normalized path and each distinct path occurs at most once;
in particular a body consisting of two img tags that share the cover's
normalized key loses both of them. -/
theorem c1_normalize_post_image_dedup (cover : String) (cs : List Node)
    (hleaf : imgLeafF cs = true) :
    (keptNorms (normalize_post_content cover cs)).Nodup ∧
    (∀ n ∈ keptNorms (normalize_post_content cover cs), n ≠ normalize_src cover) ∧
    normalize_post_content "photo.jpg"
      [Node.elem "img" [("src", "photo-1200x800.jpg")] [],
       Node.elem "img" [("src", "photo.jpg")] []] = [] := by
  have hk := keptNorms_congr (imgSrcsF_normalize_post_content cover cs)
  obtain ⟨-, m2, m3⟩ := stripGo_invariant (normalize_src cover) [] true cs hleaf
  refine ⟨hk ▸ m2, ?_, ?_⟩
  · intro n hmem
    exact (m3 n (hk ▸ hmem)).2.2
  · have e1 : normalize_src (getAttrD [("src", "photo-1200x800.jpg")] "src" "") =
        "photo.jpg" := by rfl
    have e2 : normalize_src (getAttrD [("src", "photo.jpg")] "src" "") =
        "photo.jpg" := by rfl
    have e3 : normalize_src "photo.jpg" = "photo.jpg" := by rfl
    simp [normalize_post_content, stripGo, wrapGo, h1ToH3, countMeaningful, e1, e2, e3]

/-- Witness for c1_normalize_post_image_dedup at a concrete one-image body. -/
theorem c1_normalize_post_image_dedup_witness :
    imgLeafF [Node.elem "img" [("src", "a.jpg")] []] = true ∧
    (keptNorms (normalize_post_content "c.jpg"
      [Node.elem "img" [("src", "a.jpg")] []])).Nodup :=
  ⟨by simp [imgLeafF],
   (c1_normalize_post_image_dedup "c.jpg"
     [Node.elem "img" [("src", "a.jpg")] []] (by simp [imgLeafF])).1⟩


/-! ## C3: excerpt truncation boundaries -/

/-- Concrete 221-character whitespace-collapsed text used to compare
make_excerpt with the word-boundary claim. -/
def c3text : String :=
  strJoinSep " " (List.replicate 44 "abcd") ++ " a"

set_option maxRecDepth 40000 in
/-- C3 counterexample: on a 221-character collapsed text (one character over
the 220 limit), make_excerpt hard-cuts at 217 characters instead of cutting
at the nearest word boundary preceding the limit, so the claim as stated is
false for make_excerpt. -/
theorem c3_truncation_counterexample :
    strLen (pyCollapse c3text) = 221 ∧
    make_excerpt c3text ≠ claimWordBoundaryCut (pyCollapse c3text) 220 := by
  constructor
  · rfl
  · decide

/-- C3 amended: when the whitespace-collapsed text is within the limit both
functions return it unchanged; one character over the limit,
strip_and_truncate cuts its 170-character prefix at the last space (keeping
the whole prefix when it has no space), strips and appends an ellipsis,
while make_excerpt hard-truncates to 217 characters, right-strips and
appends an ellipsis without seeking a word boundary. -/
theorem c3_truncation_amended (t : String) :
    (strLen (pyCollapse t) ≤ 170 → strip_and_truncate t = pyCollapse t) ∧
    (strLen (pyCollapse t) ≤ 220 → make_excerpt t = pyCollapse t) ∧
    (strLen (pyCollapse t) = 171 →
      strip_and_truncate t =
        pyStrip (cutAtLastSpace (strTake (pyCollapse t) 170)) ++ "...") ∧
    (strLen (pyCollapse t) = 221 →
      make_excerpt t = pyRstrip (strTake (pyCollapse t) 217) ++ "...") := by
  refine ⟨fun h => ?_, fun h => ?_, fun h => ?_, fun h => ?_⟩
  · simp [strip_and_truncate, h]
  · simp [make_excerpt, h]
  · simp [strip_and_truncate, h]
  · simp [make_excerpt, h]

set_option maxRecDepth 40000 in
/-- Witness for c3_truncation_amended at concrete inside-limit and
one-over-limit inputs. -/
theorem c3_truncation_amended_witness :
    (strip_and_truncate "Um resumo  curto." = "Um resumo curto." ∧
     make_excerpt "Um resumo  curto." = "Um resumo curto.") ∧
    strip_and_truncate (String.mk (List.replicate 171 'x')) =
      String.mk (List.replicate 170 'x') ++ "..." := by
  refine ⟨⟨?_, ?_⟩, ?_⟩
  · exact (c3_truncation_amended "Um resumo  curto.").1 (by decide)
  · exact (c3_truncation_amended "Um resumo  curto.").2.1 (by decide)
  · have h := (c3_truncation_amended (String.mk (List.replicate 171 'x'))).2.2.1
      (by decide)
    rw [h]
    decide


/-! ## C6: normalize_src canonical keys -/

/-- C6: normalize_src reduces an asset reference to a canonical key by
stripping query and fragment, resolving relative segments, stripping the
fcge/ path prefix, lower-casing, and stripping generated -WIDTHxHEIGHT,
-scaled, -rotated and long-hash suffixes; in particular photo-1200x800.jpg
and photo.jpg share the key photo.jpg. -/
theorem c6_normalize_src_key :
    normalize_src "photo-1200x800.jpg" = "photo.jpg" ∧
    normalize_src "photo.jpg" = "photo.jpg" ∧
    normalize_src "a/photo.jpg?x=1#y" = "a/photo.jpg" ∧
    normalize_src "a/./b/../photo.jpg" = "a/photo.jpg" ∧
    normalize_src "fcge/Imagens/Foto.JPG" = "imagens/foto.jpg" ∧
    normalize_src "photo-scaled.jpg" = "photo.jpg" ∧
    normalize_src "photo-rotated.png" = "photo.png" ∧
    normalize_src "photo-abcdef123456.jpg" = "photo.jpg" ∧
    normalize_src
      "https://www.fcgestaoestrategica.com.br/wp-content/uploads/capa-1024x683.jpg"
      = "wp-content/uploads/capa.jpg" ∧
    normalize_src "data:image/png;base64,AAAA" = "" := by
  refine ⟨rfl, rfl, rfl, rfl, rfl, rfl, rfl, rfl, rfl, rfl⟩


/-! ## fix_article_layout.py: path adjustment by directory depth (C7) -/

/-- normalize_path from scripts/fix_article_layout.py: strip, then remove one
leading ./ occurrence. -/
def normalize_path (v : String) : String :=
  let v1 := pyStrip v
  if strStarts v1 "./" then String.mk (v1.data.drop 2) else v1

/-- is_relative_url from scripts/fix_article_layout.py. -/
def is_relative_url (url : String) : Bool :=
  if url = "" then false
  else if strStarts url "#" || strStarts url "mailto:" || strStarts url "tel:"
      || strStarts url "data:" || strStarts url "javascript:" then false
  else if strStarts url "/" then false
  else if strStarts url "http://" || strStarts url "https://" then false
  else true

/-- adjust_relative from scripts/fix_article_layout.py. -/
def adjust_relative (value : String) (pfx : String) : String :=
  if value = "" then value
  else if ¬ is_relative_url value then value
  else pfx ++ value

/-- The attribute rewriting of adjust_tag_paths: href first, then src, each
only when present. -/
def adjustAttrs (a : List (String × String)) (pfx : String) :
    List (String × String) :=
  let a1 := if hasAttrKey a "href"
            then setAttr a "href" (adjust_relative (getAttrD a "href" "") pfx)
            else a
  if hasAttrKey a1 "src"
  then setAttr a1 "src" (adjust_relative (getAttrD a1 "src" "") pfx)
  else a1

/-- adjust_tag_paths from scripts/fix_article_layout.py, on one tag. -/
def adjust_tag_paths (n : Node) (pfx : String) : Node :=
  match n with
  | .text s => .text s
  | .elem t a ch => .elem t (adjustAttrs a pfx) ch

/-- The per-page loops of main: adjust_tag_paths applied to every element of
the cloned header, main and footer subtrees (find_all(True)). -/
def adjustAllF : List Node → String → List Node
  | [], _ => []
  | .text s :: rest, p => .text s :: adjustAllF rest p
  | .elem t a ch :: rest, p =>
    .elem t (adjustAttrs a p) (adjustAllF ch p) :: adjustAllF rest p
termination_by cs => sizeOf cs

/-- All values of one attribute over the elements of a forest, in document
order. -/
def attrValuesF (k : String) : List Node → List String
  | [] => []
  | .text _ :: rest => attrValuesF k rest
  | .elem _ a ch :: rest =>
    (match getAttr a k with
     | some v => [v]
     | none => []) ++ attrValuesF k ch ++ attrValuesF k rest
termination_by cs => sizeOf cs

/-- The depth prefix computed in main: "../" * depth. -/
def dPrefix (d : Nat) : String :=
  (List.replicate d "../").foldl (fun acc s => acc ++ s) ""

theorem lookup_setAttr_self (a : List (String × String)) (k v : String) :
    (setAttr a k v).lookup k = some v := by
  induction a with
  | nil => simp [setAttr, List.lookup]
  | cons hd tl ih =>
    obtain ⟨k0, v0⟩ := hd
    by_cases hk : k0 = k
    · subst hk
      simp [setAttr, List.lookup]
    · have hb : (k == k0) = false := beq_eq_false_iff_ne.mpr (Ne.symm hk)
      simp [setAttr, hk, List.lookup, hb, ih]

theorem getAttr_adjustAttrs (a : List (String × String)) (p : String) :
    getAttr (adjustAttrs a p) "href" =
      (getAttr a "href").map (fun v => adjust_relative v p) ∧
    getAttr (adjustAttrs a p) "src" =
      (getAttr a "src").map (fun v => adjust_relative v p) := by
  have hne1 : ("src" : String) ≠ "href" := by decide
  have hne2 : ("href" : String) ≠ "src" := by decide
  unfold adjustAttrs getAttr hasAttrKey getAttrD
  cases hh : List.lookup "href" a with
  | none =>
    cases hs : List.lookup "src" a with
    | none => simp [hh, hs]
    | some vs =>
      simp only [hh, hs, Option.isSome_none, Option.isSome_some, Bool.false_eq_true,
        if_false, if_true, Option.getD_some, Option.map_some, Option.map_none]
      exact ⟨by rw [lookup_setAttr_ne _ _ _ _ hne2, hh]; simp,
        by rw [lookup_setAttr_self]; simp⟩
  | some vh =>
    cases hs : List.lookup "src" a with
    | none =>
      simp only [hh, hs, Option.isSome_some, if_true, Option.getD_some,
        Option.map_some, Option.map_none]
      rw [lookup_setAttr_ne _ _ _ _ hne1, hs]
      simp only [Option.isSome_none, Bool.false_eq_true, if_false]
      exact ⟨by rw [lookup_setAttr_self]; simp,
        by rw [lookup_setAttr_ne _ _ _ _ hne1, hs]; simp⟩
    | some vs =>
      simp only [hh, hs, Option.isSome_some, if_true, Option.getD_some,
        Option.map_some]
      rw [lookup_setAttr_ne _ _ _ _ hne1, hs]
      simp only [Option.isSome_some, if_true, Option.getD_some]
      refine ⟨?_, by rw [lookup_setAttr_self]; simp⟩
      rw [lookup_setAttr_ne _ _ _ _ hne2, lookup_setAttr_self]
      simp

/-- C7 forest lemma: after the adjustment pass, the href and src attribute
values are exactly the original values passed through adjust_relative. -/
theorem attrValuesF_adjustAllF (f : List Node) (p : String) :
    attrValuesF "href" (adjustAllF f p) =
      (attrValuesF "href" f).map (fun v => adjust_relative v p) ∧
    attrValuesF "src" (adjustAllF f p) =
      (attrValuesF "src" f).map (fun v => adjust_relative v p) := by
  induction f, p using adjustAllF.induct with
  | case1 p => simp [adjustAllF, attrValuesF]
  | case2 s rest p ih => simpa [adjustAllF, attrValuesF] using ih
  | case3 t a ch rest p ihc ihr =>
    obtain ⟨h1, h2⟩ := getAttr_adjustAttrs a p
    constructor
    · simp only [adjustAllF, attrValuesF, h1, ihc.1, ihr.1, List.map_append]
      cases getAttr a "href" <;> simp
    · simp only [adjustAllF, attrValuesF, h2, ihc.2, ihr.2, List.map_append]
      cases getAttr a "src" <;> simp

/-- C7: composing at directory depth d prefixes every relative href and src in
the merged template subtrees with "../" repeated d times, leaves absolute,
root-relative and non-navigational values unchanged, and at depth 2 turns
index.html into ../../index.html. -/
theorem c7_depth_prefix_adjust :
    (∀ v p, is_relative_url v = true → adjust_relative v p = p ++ v) ∧
    (∀ v p, is_relative_url v = false → adjust_relative v p = v) ∧
    (∀ f p, attrValuesF "href" (adjustAllF f p) =
        (attrValuesF "href" f).map (fun v => adjust_relative v p) ∧
      attrValuesF "src" (adjustAllF f p) =
        (attrValuesF "src" f).map (fun v => adjust_relative v p)) ∧
    dPrefix 2 = "../../" ∧
    adjust_relative "index.html" (dPrefix 2) = "../../index.html" := by
  refine ⟨?_, ?_, fun f p => attrValuesF_adjustAllF f p, by decide, by decide⟩
  · intro v p h
    have hv : v ≠ "" := by
      intro he
      rw [he] at h
      simp [is_relative_url] at h
    simp [adjust_relative, hv, h]
  · intro v p h
    by_cases hv : v = ""
    · simp [adjust_relative, hv]
    · simp [adjust_relative, hv, h]

/-- Witness for c7_depth_prefix_adjust: relative and absolute hrefs at
depth 2. -/
theorem c7_depth_prefix_adjust_witness :
    adjust_relative "index.html" (dPrefix 2) = "../../index.html" ∧
    adjust_relative "https://fonts.googleapis.com/css" (dPrefix 2) =
      "https://fonts.googleapis.com/css" := by
  refine ⟨c7_depth_prefix_adjust.2.2.2.2, ?_⟩
  exact c7_depth_prefix_adjust.2.1 "https://fonts.googleapis.com/css"
    (dPrefix 2) (by decide)


/-! ## fix_article_layout.py: head asset merge (C2) -/

/-- Ascending insertion of a string into a sorted list. -/
def insertSorted (x : String) : List String → List String
  | [] => [x]
  | y :: rest => if x ≤ y then x :: y :: rest else y :: insertSorted x rest

/-- Python sorted() on a list of strings. -/
def sortStrings : List String → List String
  | [] => []
  | x :: rest => insertSorted x (sortStrings rest)

/-- The rel attribute as BeautifulSoup exposes it: a whitespace-split list,
empty when absent. -/
def relListOf (a : List (String × String)) : List String :=
  match getAttr a "rel" with
  | some v => splitWs v
  | none => []

/-- All text-node strings below a forest, in document order. -/
def textsOf : List Node → List String
  | [] => []
  | .text s :: rest => s :: textsOf rest
  | .elem _ _ ch :: rest => textsOf ch ++ textsOf rest
termination_by cs => sizeOf cs

/-- get_text("\n", strip=True): stripped non-empty strings joined by
newlines. -/
def getTextSep (n : Node) : String :=
  strJoinSep "\n" (((textsOf [n]).map pyStrip).filter (fun s => s ≠ ""))

/-- Identity key of a link asset: sorted rel set plus normalized href. -/
def linkKey (a : List (String × String)) : List String × String :=
  (sortStrings (relListOf a), normalize_path (getAttrD a "href" ""))

/-- Identity key of an external script asset: its normalized src. -/
def scriptKey (a : List (String × String)) : String :=
  normalize_path (getAttrD a "src" "")

structure ExistingAssets where
  links : List (List String × String)
  scripts : List String
  styles : List String

/-- collect_existing_assets, link component: every link with an href anywhere
under the head. -/
def collectLinks : List Node → List (List String × String)
  | [] => []
  | .text _ :: rest => collectLinks rest
  | .elem t a ch :: rest =>
    (if t = "link" ∧ hasAttrKey a "href" then [linkKey a] else []) ++
      collectLinks ch ++ collectLinks rest
termination_by cs => sizeOf cs

/-- collect_existing_assets, script component: every script with a src. -/
def collectScripts : List Node → List String
  | [] => []
  | .text _ :: rest => collectScripts rest
  | .elem t a ch :: rest =>
    (if t = "script" ∧ hasAttrKey a "src" then [scriptKey a] else []) ++
      collectScripts ch ++ collectScripts rest
termination_by cs => sizeOf cs

/-- collect_existing_assets, style component: every style whose stripped text
is non-empty. -/
def collectStyles : List Node → List String
  | [] => []
  | .text _ :: rest => collectStyles rest
  | .elem t a ch :: rest =>
    (if t = "style" ∧ getTextSep (.elem t a ch) ≠ ""
     then [getTextSep (.elem t a ch)] else []) ++
      collectStyles ch ++ collectStyles rest
termination_by cs => sizeOf cs

/-- collect_existing_assets from scripts/fix_article_layout.py. -/
def collect_existing_assets (head : List Node) : ExistingAssets :=
  ⟨collectLinks head, collectScripts head, collectStyles head⟩

/-- The allowed rel values of extract_assets. -/
def allowedRel : List String :=
  ["preconnect", "stylesheet", "icon", "apple-touch-icon", "manifest"]

/-- extract_assets from scripts/fix_article_layout.py: top-level template head
children that are allowed links, external scripts, or styles. -/
def extract_assets : List Node → List Node
  | [] => []
  | .text _ :: rest => extract_assets rest
  | .elem t a ch :: rest =>
    let keep :=
      if t = "link" then (relListOf a).any (fun r => allowedRel.contains r)
      else if t = "script" then getAttrD a "src" "" ≠ ""
      else t = "style"
    (if keep then [Node.elem t a ch] else []) ++ extract_assets rest

/-- One step of the update_head_assets loop: clone the asset, adjust its
paths, and append it unless an asset with the same identity is already
recorded. -/
def updateAsset (st : List Node × ExistingAssets) (asset : Node) (pfx : String) :
    List Node × ExistingAssets :=
  match asset with
  | .text _ => st
  | .elem t a ch =>
    let a2 := adjustAttrs a pfx
    let cloned := Node.elem t a2 ch
    if t = "link" then
      if st.2.links.contains (linkKey a2) then st
      else (st.1 ++ [cloned],
        ⟨st.2.links ++ [linkKey a2], st.2.scripts, st.2.styles⟩)
    else if t = "script" ∧ getAttrD a2 "src" "" ≠ "" then
      if st.2.scripts.contains (scriptKey a2) then st
      else (st.1 ++ [cloned],
        ⟨st.2.links, st.2.scripts ++ [scriptKey a2], st.2.styles⟩)
    else if t = "style" then
      let txt := getTextSep cloned
      if txt ≠ "" ∧ st.2.styles.contains txt then st
      else (st.1 ++ [cloned],
        if txt ≠ "" then ⟨st.2.links, st.2.scripts, st.2.styles ++ [txt]⟩
        else st.2)
    else st

/-- update_head_assets from scripts/fix_article_layout.py: fold the template
assets over the head, starting from the freshly collected identity sets. -/
def update_head_assets (head : List Node) (assets : List Node) (pfx : String) :
    List Node :=
  (assets.foldl (fun st asset => updateAsset st asset pfx)
    (head, collect_existing_assets head)).1


/-- Componentwise membership inclusion of identity sets. -/
def exSubset (e1 e2 : ExistingAssets) : Prop :=
  (∀ k ∈ e1.links, k ∈ e2.links) ∧ (∀ k ∈ e1.scripts, k ∈ e2.scripts) ∧
  (∀ k ∈ e1.styles, k ∈ e2.styles)

theorem exSubset_refl (e : ExistingAssets) : exSubset e e :=
  ⟨fun _ h => h, fun _ h => h, fun _ h => h⟩

theorem collectLinks_append (a b : List Node) :
    collectLinks (a ++ b) = collectLinks a ++ collectLinks b := by
  induction a with
  | nil => simp [collectLinks]
  | cons hd tl ih => cases hd <;> simp_all [collectLinks]

theorem collectScripts_append (a b : List Node) :
    collectScripts (a ++ b) = collectScripts a ++ collectScripts b := by
  induction a with
  | nil => simp [collectScripts]
  | cons hd tl ih => cases hd <;> simp_all [collectScripts]

theorem collectStyles_append (a b : List Node) :
    collectStyles (a ++ b) = collectStyles a ++ collectStyles b := by
  induction a with
  | nil => simp [collectStyles]
  | cons hd tl ih => cases hd <;> simp_all [collectStyles]

/-- The text of an element does not depend on its attributes. -/
theorem getTextSep_attrs (t : String) (a b : List (String × String))
    (ch : List Node) : getTextSep (.elem t a ch) = getTextSep (.elem t b ch) := by
  simp [getTextSep, textsOf]

/-- Attribute presence survives path adjustment. -/
theorem hasAttrKey_adjustAttrs (a : List (String × String)) (p k : String)
    (hk : k = "href" ∨ k = "src") :
    hasAttrKey (adjustAttrs a p) k = hasAttrKey a k := by
  obtain ⟨h1, h2⟩ := getAttr_adjustAttrs a p
  rcases hk with rfl | rfl <;>
    simp [hasAttrKey, show getAttr = fun a k => List.lookup k a from rfl] at h1 h2 ⊢ <;>
    [rw [h1]; rw [h2]] <;> cases List.lookup _ a <;> simp

/-- Idempotence precondition on one template asset: links carry an href and
styles have non-empty text. -/
def assetIdemOK : Node → Prop
  | .text _ => True
  | .elem t a ch =>
    (t = "link" → hasAttrKey a "href" = true) ∧
    (t = "style" → getTextSep (.elem t a ch) ≠ "")

/-- The asset's identity is already recorded in the identity sets. -/
def assetSettled (ex : ExistingAssets) (pfx : String) : Node → Prop
  | .text _ => True
  | .elem t a ch =>
    if t = "link" then linkKey (adjustAttrs a pfx) ∈ ex.links
    else if t = "script" ∧ getAttrD (adjustAttrs a pfx) "src" "" ≠ "" then
      scriptKey (adjustAttrs a pfx) ∈ ex.scripts
    else if t = "style" then
      getTextSep (.elem t (adjustAttrs a pfx) ch) ∈ ex.styles
    else True

theorem assetSettled_mono {e1 e2 : ExistingAssets} (h : exSubset e1 e2)
    (pfx : String) (a : Node) (ha : assetSettled e1 pfx a) :
    assetSettled e2 pfx a := by
  cases a with
  | text s => trivial
  | elem t a0 ch =>
    simp only [assetSettled] at ha ⊢
    split_ifs at ha ⊢ <;>
      first
      | exact h.1 _ ha
      | exact h.2.1 _ ha
      | exact h.2.2 _ ha

/-- A settled OK asset is skipped without changing head or identity sets. -/
theorem updateAsset_skip (st : List Node × ExistingAssets) (asset : Node)
    (pfx : String) (hok : assetIdemOK asset)
    (hst : assetSettled st.2 pfx asset) :
    updateAsset st asset pfx = st := by
  cases asset with
  | text s => rfl
  | elem t a ch =>
    simp only [assetSettled] at hst
    by_cases h1 : t = "link"
    · rw [if_pos h1] at hst
      simp [updateAsset, h1, hst]
    · rw [if_neg h1] at hst
      by_cases h2 : t = "script" ∧ getAttrD (adjustAttrs a pfx) "src" "" ≠ ""
      · rw [if_pos h2] at hst
        simp [updateAsset, h1, h2, hst]
      · rw [if_neg h2] at hst
        by_cases h3 : t = "style"
        · subst h3
          rw [if_pos rfl] at hst
          have htxt : getTextSep (Node.elem "style" (adjustAttrs a pfx) ch) ≠ "" := by
            rw [getTextSep_attrs "style" (adjustAttrs a pfx) a ch]
            exact hok.2 rfl
          simp [updateAsset, h1, h2, htxt, hst]
        · simp [updateAsset, h1, h2, h3]


theorem exSubset_trans {e1 e2 e3 : ExistingAssets} (h1 : exSubset e1 e2)
    (h2 : exSubset e2 e3) : exSubset e1 e3 :=
  ⟨fun k hk => h2.1 k (h1.1 k hk), fun k hk => h2.2.1 k (h1.2.1 k hk),
   fun k hk => h2.2.2 k (h1.2.2 k hk)⟩

theorem getAttrD_ne_hasAttr (a : List (String × String)) (k d : String)
    (h : getAttrD a k d ≠ d) : hasAttrKey a k = true := by
  unfold getAttrD at h
  unfold hasAttrKey
  cases hl : List.lookup k a
  · rw [hl] at h
    simp at h
  · simp

theorem updateAsset_mono (st : List Node × ExistingAssets) (asset : Node)
    (pfx : String) : exSubset st.2 (updateAsset st asset pfx).2 := by
  cases asset with
  | text s => exact exSubset_refl _
  | elem t a ch =>
    simp only [updateAsset]
    split_ifs <;>
      first
      | exact exSubset_refl _
      | exact ⟨fun k hk => List.mem_append_left _ hk, fun _ hk => hk,
          fun _ hk => hk⟩
      | exact ⟨fun _ hk => hk, fun k hk => List.mem_append_left _ hk,
          fun _ hk => hk⟩
      | exact ⟨fun _ hk => hk, fun _ hk => hk,
          fun k hk => List.mem_append_left _ hk⟩

theorem updateAsset_settled_after (st : List Node × ExistingAssets)
    (asset : Node) (pfx : String) (hok : assetIdemOK asset) :
    assetSettled (updateAsset st asset pfx).2 pfx asset := by
  cases asset with
  | text s => trivial
  | elem t a ch =>
    by_cases h1 : t = "link"
    · subst h1
      by_cases hc : st.2.links.contains (linkKey (adjustAttrs a pfx)) = true
      · simp only [updateAsset, if_pos rfl, if_true, if_false]
        rw [if_pos hc]
        simp only [assetSettled, if_pos rfl]
        simpa using hc
      · simp only [updateAsset, if_pos rfl, if_true, if_false]
        rw [if_neg hc]
        simp only [assetSettled, if_pos rfl]
        simp
    · by_cases h2 : t = "script" ∧ getAttrD (adjustAttrs a pfx) "src" "" ≠ ""
      · by_cases hc : st.2.scripts.contains (scriptKey (adjustAttrs a pfx)) = true
        · simp only [updateAsset, if_neg h1, if_pos h2, if_true, if_false]
          rw [if_pos hc]
          simp only [assetSettled, if_neg h1, if_pos h2]
          simpa using hc
        · simp only [updateAsset, if_neg h1, if_pos h2, if_true, if_false]
          rw [if_neg hc]
          simp only [assetSettled, if_neg h1, if_pos h2]
          simp
      · by_cases h3 : t = "style"
        · subst h3
          have htxt : getTextSep (Node.elem "style" (adjustAttrs a pfx) ch) ≠ "" := by
            rw [getTextSep_attrs "style" (adjustAttrs a pfx) a ch]
            exact hok.2 rfl
          by_cases hc : st.2.styles.contains
              (getTextSep (Node.elem "style" (adjustAttrs a pfx) ch)) = true
          · simp only [updateAsset, if_neg h1, if_neg h2, if_pos rfl, if_true, if_false]
            rw [if_pos (And.intro htxt hc)]
            simp only [assetSettled, if_neg h1, if_neg h2, if_pos rfl]
            simpa using hc
          · simp only [updateAsset, if_neg h1, if_neg h2, if_pos rfl, if_true, if_false]
            rw [if_neg (show ¬ (getTextSep (Node.elem "style" (adjustAttrs a pfx) ch) ≠ "" ∧
                  st.2.styles.contains
                    (getTextSep (Node.elem "style" (adjustAttrs a pfx) ch)) = true)
                from fun hcon => hc hcon.2),
              if_pos htxt]
            simp only [assetSettled, if_neg h1, if_neg h2, if_pos rfl]
            simp
        · simp [assetSettled, h1, h2, h3]

theorem updateAsset_subset_pres (st : List Node × ExistingAssets) (asset : Node)
    (pfx : String) (hok : assetIdemOK asset)
    (hsub : exSubset st.2 (collect_existing_assets st.1)) :
    exSubset (updateAsset st asset pfx).2
      (collect_existing_assets (updateAsset st asset pfx).1) := by
  obtain ⟨s1, s2, s3⟩ := hsub
  cases asset with
  | text s => exact ⟨s1, s2, s3⟩
  | elem t a ch =>
    by_cases h1 : t = "link"
    · subst h1
      have hhref : hasAttrKey (adjustAttrs a pfx) "href" = true := by
        rw [hasAttrKey_adjustAttrs a pfx "href" (Or.inl rfl)]
        exact hok.1 rfl
      by_cases hc : st.2.links.contains (linkKey (adjustAttrs a pfx)) = true
      · simp only [updateAsset, if_pos rfl, if_true, if_false]
        rw [if_pos hc]
        exact ⟨s1, s2, s3⟩
      · simp only [updateAsset, if_pos rfl, if_true, if_false]
        rw [if_neg hc]
        refine ⟨?_, ?_, ?_⟩ <;>
          simp only [collect_existing_assets, collectLinks_append,
            collectScripts_append, collectStyles_append]
        · intro k hk
          rcases List.mem_append.mp hk with hk | hk
          · exact List.mem_append_left _ (s1 k hk)
          · have hkk : k = linkKey (adjustAttrs a pfx) := by simpa using hk
            subst hkk
            refine List.mem_append_right _ ?_
            simp [collectLinks, hhref]
        · intro k hk
          exact List.mem_append_left _ (s2 k hk)
        · intro k hk
          exact List.mem_append_left _ (s3 k hk)
    · by_cases h2 : t = "script" ∧ getAttrD (adjustAttrs a pfx) "src" "" ≠ ""
      · have hsrc : hasAttrKey (adjustAttrs a pfx) "src" = true :=
          getAttrD_ne_hasAttr _ _ _ h2.2
        by_cases hc : st.2.scripts.contains (scriptKey (adjustAttrs a pfx)) = true
        · simp only [updateAsset, if_neg h1, if_pos h2, if_true, if_false]
          rw [if_pos hc]
          exact ⟨s1, s2, s3⟩
        · simp only [updateAsset, if_neg h1, if_pos h2, if_true, if_false]
          rw [if_neg hc]
          refine ⟨?_, ?_, ?_⟩ <;>
            simp only [collect_existing_assets, collectLinks_append,
              collectScripts_append, collectStyles_append]
          · intro k hk
            exact List.mem_append_left _ (s1 k hk)
          · intro k hk
            rcases List.mem_append.mp hk with hk | hk
            · exact List.mem_append_left _ (s2 k hk)
            · have hkk : k = scriptKey (adjustAttrs a pfx) := by simpa using hk
              subst hkk
              refine List.mem_append_right _ ?_
              simp [collectScripts, h2.1, hsrc]
          · intro k hk
            exact List.mem_append_left _ (s3 k hk)
      · by_cases h3 : t = "style"
        · subst h3
          have htxt : getTextSep (Node.elem "style" (adjustAttrs a pfx) ch) ≠ "" := by
            rw [getTextSep_attrs "style" (adjustAttrs a pfx) a ch]
            exact hok.2 rfl
          by_cases hc : st.2.styles.contains
              (getTextSep (Node.elem "style" (adjustAttrs a pfx) ch)) = true
          · simp only [updateAsset, if_neg h1, if_neg h2, if_pos rfl, if_true,
              if_false]
            rw [if_pos (And.intro htxt hc)]
            exact ⟨s1, s2, s3⟩
          · simp only [updateAsset, if_neg h1, if_neg h2, if_pos rfl, if_true,
              if_false]
            rw [if_neg (show ¬ (getTextSep (Node.elem "style" (adjustAttrs a pfx) ch) ≠ "" ∧
                  st.2.styles.contains
                    (getTextSep (Node.elem "style" (adjustAttrs a pfx) ch)) = true)
                from fun hcon => hc hcon.2),
              if_pos htxt]
            refine ⟨?_, ?_, ?_⟩ <;>
              simp only [collect_existing_assets, collectLinks_append,
                collectScripts_append, collectStyles_append]
            · intro k hk
              exact List.mem_append_left _ (s1 k hk)
            · intro k hk
              exact List.mem_append_left _ (s2 k hk)
            · intro k hk
              rcases List.mem_append.mp hk with hk | hk
              · exact List.mem_append_left _ (s3 k hk)
              · have hkk : k = getTextSep (Node.elem "style" (adjustAttrs a pfx) ch) := by
                  simpa using hk
                subst hkk
                refine List.mem_append_right _ ?_
                simp [collectStyles, htxt]
        · simp only [updateAsset, if_neg h1, if_neg h2, if_neg h3]
          exact ⟨s1, s2, s3⟩

def foldUpdate (assets : List Node) (st : List Node × ExistingAssets)
    (pfx : String) : List Node × ExistingAssets :=
  assets.foldl (fun s asset => updateAsset s asset pfx) st

theorem foldUpdate_mono (assets : List Node) (st : List Node × ExistingAssets)
    (pfx : String) : exSubset st.2 (foldUpdate assets st pfx).2 := by
  induction assets generalizing st with
  | nil => exact exSubset_refl _
  | cons hd tl ih =>
    exact exSubset_trans (updateAsset_mono st hd pfx) (ih (updateAsset st hd pfx))

theorem foldUpdate_settled (assets : List Node)
    (st : List Node × ExistingAssets) (pfx : String)
    (hok : ∀ a ∈ assets, assetIdemOK a) :
    ∀ a ∈ assets, assetSettled (foldUpdate assets st pfx).2 pfx a := by
  induction assets generalizing st with
  | nil => intro a ha; cases ha
  | cons hd tl ih =>
    intro a ha
    rcases List.mem_cons.mp ha with rfl | ha
    · exact assetSettled_mono
        (foldUpdate_mono tl (updateAsset st a pfx) pfx) pfx a
        (updateAsset_settled_after st a pfx (hok a (List.mem_cons_self _ _)))
    · exact ih (updateAsset st hd pfx)
        (fun x hx => hok x (List.mem_cons_of_mem _ hx)) a ha

theorem foldUpdate_subset (assets : List Node)
    (st : List Node × ExistingAssets) (pfx : String)
    (hok : ∀ a ∈ assets, assetIdemOK a)
    (hsub : exSubset st.2 (collect_existing_assets st.1)) :
    exSubset (foldUpdate assets st pfx).2
      (collect_existing_assets (foldUpdate assets st pfx).1) := by
  induction assets generalizing st with
  | nil => exact hsub
  | cons hd tl ih =>
    exact ih (updateAsset st hd pfx)
      (fun x hx => hok x (List.mem_cons_of_mem _ hx))
      (updateAsset_subset_pres st hd pfx (hok hd (List.mem_cons_self _ _)) hsub)

theorem foldUpdate_fix (assets : List Node) (st : List Node × ExistingAssets)
    (pfx : String)
    (h : ∀ a ∈ assets, assetIdemOK a ∧ assetSettled st.2 pfx a) :
    foldUpdate assets st pfx = st := by
  induction assets with
  | nil => rfl
  | cons hd tl ih =>
    have hstep : updateAsset st hd pfx = st :=
      updateAsset_skip st hd pfx (h hd (List.mem_cons_self _ _)).1
        (h hd (List.mem_cons_self _ _)).2
    unfold foldUpdate
    simp only [List.foldl_cons, hstep]
    exact ih (fun x hx => h x (List.mem_cons_of_mem _ hx))

/-- C2 amended: merging the template assets a second time adds nothing,
provided every link asset carries an href attribute and every style asset
has non-empty stripped text (the code skips the identity check for empty
style text, and a link without href is never recorded as existing). -/
theorem c2_head_assets_idem (head assets : List Node) (pfx : String)
    (hok : ∀ a ∈ assets, assetIdemOK a) :
    update_head_assets (update_head_assets head assets pfx) assets pfx =
      update_head_assets head assets pfx := by
  show (foldUpdate assets (update_head_assets head assets pfx,
    collect_existing_assets (update_head_assets head assets pfx)) pfx).1 =
    update_head_assets head assets pfx
  have hres : update_head_assets head assets pfx =
      (foldUpdate assets (head, collect_existing_assets head) pfx).1 := rfl
  have hsub : exSubset (foldUpdate assets (head, collect_existing_assets head) pfx).2
      (collect_existing_assets
        (foldUpdate assets (head, collect_existing_assets head) pfx).1) :=
    foldUpdate_subset assets (head, collect_existing_assets head) pfx hok
      (exSubset_refl _)
  have hsettled := foldUpdate_settled assets (head, collect_existing_assets head)
    pfx hok
  have hfix := foldUpdate_fix assets
    ((foldUpdate assets (head, collect_existing_assets head) pfx).1,
      collect_existing_assets
        (foldUpdate assets (head, collect_existing_assets head) pfx).1) pfx
    (fun a ha => ⟨hok a ha,
      assetSettled_mono hsub pfx a (hsettled a ha)⟩)
  rw [hres, hfix]


/-- C2 counterexample: a template style whose text is blank is appended again
by a second run even though the head already contains a style with identical
(empty) inline text, so the claim as stated fails: the head asset set after
two runs differs from the set after one. -/
theorem c2_head_assets_counterexample :
    (update_head_assets
        (update_head_assets []
          (extract_assets [Node.elem "style" [] [Node.text "   "]]) "")
        (extract_assets [Node.elem "style" [] [Node.text "   "]]) "").length ≠
      (update_head_assets []
        (extract_assets [Node.elem "style" [] [Node.text "   "]]) "").length := by
  have hstrip : pyStrip "   " = "" := by rfl
  simp [update_head_assets, updateAsset, collect_existing_assets, collectLinks,
    collectScripts, collectStyles, extract_assets, adjustAttrs, hasAttrKey,
    getAttr, getTextSep, textsOf, strJoinSep, hstrip, relListOf, splitWs,
    splitWsAux, foldUpdate]

/-- Witness for c2_head_assets_idem on a concrete template asset list. -/
theorem c2_head_assets_idem_witness :
    update_head_assets
        (update_head_assets []
          [Node.elem "link" [("rel", "stylesheet"), ("href", "styles.css")] [],
           Node.elem "style" [] [Node.text "body p"]] "../")
        [Node.elem "link" [("rel", "stylesheet"), ("href", "styles.css")] [],
         Node.elem "style" [] [Node.text "body p"]] "../" =
      update_head_assets []
        [Node.elem "link" [("rel", "stylesheet"), ("href", "styles.css")] [],
         Node.elem "style" [] [Node.text "body p"]] "../" := by
  apply c2_head_assets_idem
  intro a ha
  have hstrip : pyStrip "body p" = "body p" := by rfl
  rcases List.mem_cons.mp ha with rfl | ha
  · exact ⟨fun _ => rfl, fun h => absurd h (by decide)⟩
  · rcases List.mem_cons.mp ha with rfl | ha
    · refine ⟨fun h => absurd h (by decide), fun _ => ?_⟩
      simp [getTextSep, textsOf, strJoinSep, hstrip]
    · cases ha


/-! ## Link rewriting (C5): migrar_blog_fcge.py and
restore_article_content.py -/

/-- Substring containment, the Python in operator on strings. -/
def containsSubL (sub : List Char) : List Char → Bool
  | [] => startsWithL [] sub
  | c :: rest => startsWithL (c :: rest) sub || containsSubL sub rest

def strHasSub (s sub : String) : Bool :=
  containsSubL sub.data s.data

/-- Python s.strip("/"). -/
def pyStripSlashes (s : String) : String :=
  String.mk (stripPL (fun c => c = '/') s.data)

/-- slug_from_url from scripts/migrar_blog_fcge.py: last path segment, or
nothing when empty or one of the known top-level pages. -/
def slug_from_url (url : String) : Option String :=
  if url = "" then none
  else
    let path := pyStripSlashes (urlparse url).path
    if path = "" then none
    else
      match (pySplitChar '/' path).getLast? with
      | none => none
      | some slug =>
        if slug = "blog" ∨ slug = "contato" ∨ slug = "servicos" ∨
           slug = "quem-somos" ∨ slug = "sobre" ∨ slug = "cases" then none
        else some slug

/-- Per-anchor href transformation of rewrite_internal_links from
scripts/migrar_blog_fcge.py. -/
def rewrite_href_migrar (slug_to_local : List (String × String))
    (href : String) : String :=
  if strStarts href "#" || strStarts href "mailto:" || strStarts href "tel:"
      || strStarts href "javascript:" then href
  else
    let parsed := urlparse href
    let slugOpt :=
      if parsed.scheme = "http" ∨ parsed.scheme = "https" then
        if parsed.netloc ≠ "" ∧
            ¬ strHasSub parsed.netloc "fcgestaoestrategica.com.br" = true then
          none
        else slug_from_url href
      else if strStarts href "/" then slug_from_url href
      else none
    match slugOpt with
    | some s =>
      if s ≠ "" then
        match List.lookup s slug_to_local with
        | some dest => dest
        | none => href
      else href
    | none => href

/-- The legacy top-level page table of rewrite_internal_links in
scripts/restore_article_content.py. -/
def legacy_pages : List (String × String) :=
  [("", "index.html"), ("contato", "contato.html"),
   ("servicos", "servicos.html"), ("quem-somos", "sobre.html"),
   ("sobre", "sobre.html"), ("cases", "cases.html"),
   ("produtosdigitais", "produtosdigitais.html"),
   ("produtos-digitais", "produtosdigitais.html"), ("blog", "blog.html")]

/-- parsed.path.strip("/").split("/")[-1] as restore_article_content computes
the candidate slug. -/
def restore_slug_of (href : String) : String :=
  match (pySplitChar '/' (pyStripSlashes (urlparse href).path)).getLast? with
  | some s => s
  | none => ""

/-- Per-anchor href transformation of rewrite_internal_links from
scripts/restore_article_content.py. -/
def rewrite_href_restore (posts_slugs : List String) (href : String) : String :=
  if strStarts href "#" || strStarts href "mailto:" || strStarts href "tel:" then
    href
  else
    let parsed := urlparse href
    let step1 : Option String :=
      if (parsed.scheme = "http" ∨ parsed.scheme = "https") ∧
          strHasSub parsed.netloc "fcgestaoestrategica.com.br" = true then
        let slug := restore_slug_of href
        if posts_slugs.contains slug then some ("artigo-" ++ slug ++ ".html")
        else
          match List.lookup slug legacy_pages with
          | some mapped => some mapped
          | none => none
      else none
    match step1 with
    | some dest => dest
    | none => if strStarts href "/blog" then "blog.html" else href

/-- The anchor loops of both rewrite_internal_links functions: replace every
a-element href by the given rewrite. -/
def applyHrefRewrite (rw : String → String) : List Node → List Node
  | [] => []
  | .text s :: rest => .text s :: applyHrefRewrite rw rest
  | .elem t a ch :: rest =>
    let a2 := if t = "a" ∧ hasAttrKey a "href"
              then setAttr a "href" (rw (getAttrD a "href" ""))
              else a
    .elem t a2 (applyHrefRewrite rw ch) :: applyHrefRewrite rw rest
termination_by cs => sizeOf cs

theorem splitScheme_slash (d : List Char) (l : List Char) :
    (splitScheme d ('/' :: l)).1 = d := by
  unfold splitScheme
  cases h : List.findIdx? (fun c => c = ':') ('/' :: l) with
  | none => rfl
  | some i =>
    dsimp only
    rw [if_neg]
    intro hcon
    have h2 := hcon.2.1
    simp [List.head?] at h2

/-- A root-relative href has no scheme under urlparse. -/
theorem urlparse_scheme_of_root (href : String)
    (h : strStarts href "/" = true) : (urlparse href).scheme = "" := by
  obtain ⟨rest, hr⟩ : ∃ rest, href.data = '/' :: rest := by
    cases hd : href.data with
    | nil =>
      rw [show strStarts href "/" = startsWithL href.data "/".data from rfl,
        hd] at h
      exact absurd h (by decide)
    | cons c cs =>
      rw [show strStarts href "/" = startsWithL href.data "/".data from rfl,
        hd, show "/".data = ['/'] from rfl] at h
      simp only [startsWithL, Bool.and_eq_true, decide_eq_true_eq] at h
      exact ⟨cs, by rw [h.1]⟩
  have hclean : removeUnsafeL (lstripPL isC0OrSpace href.data) =
      '/' :: removeUnsafeL rest := by
    rw [hr]
    have h1 : lstripPL isC0OrSpace ('/' :: rest) = '/' :: rest := by
      simp [lstripPL, List.dropWhile_cons, isC0OrSpace]
    rw [h1]
    simp [removeUnsafeL]
  have hs : (urlparse href).scheme =
      String.mk (splitScheme "".data
        (removeUnsafeL (lstripPL isC0OrSpace href.data))).1 := rfl
  rw [hs, hclean, splitScheme_slash]

theorem strStarts_blog_root (href : String)
    (h : strStarts href "/blog" = true) : strStarts href "/" = true := by
  cases hd : href.data with
  | nil =>
    rw [show strStarts href "/blog" = startsWithL href.data "/blog".data from rfl,
      hd] at h
    exact absurd h (by decide)
  | cons c cs =>
    rw [show strStarts href "/blog" = startsWithL href.data "/blog".data from rfl,
      hd, show "/blog".data = '/' :: "blog".data from rfl] at h
    simp only [startsWithL, Bool.and_eq_true, decide_eq_true_eq] at h
    rw [show strStarts href "/" = startsWithL href.data "/".data from rfl, hd,
      show "/".data = ['/'] from rfl]
    simp [startsWithL, h.1]


/-- C5 counterexample: migrar_blog_fcge's rewriter has no legacy page table;
an on-domain anchor to /contato/ is left unchanged instead of being
rewritten to contato.html. -/
theorem c5_link_rewriter_counterexample :
    rewrite_href_migrar [("meu-artigo", "artigo-meu-artigo.html")]
        "https://www.fcgestaoestrategica.com.br/contato/" =
      "https://www.fcgestaoestrategica.com.br/contato/" ∧
    ("https://www.fcgestaoestrategica.com.br/contato/" : String) ≠
      "contato.html" := by
  exact ⟨rfl, by decide⟩

/-- C5 amended: anchors with a present host that does not contain the source
domain are left byte-identical by both rewriters; migrar's rewriter maps a
known migrated slug to its destination for on-domain absolute and for
root-relative hrefs but has no legacy-page table; restore's rewriter, on
on-domain absolute hrefs, maps known slugs to artigo-slug.html and
otherwise the legacy table, and sends root-relative hrefs starting with
/blog to blog.html. -/
theorem c5_link_rewriter_amended :
    (∀ (m : List (String × String)) (s : List String) (href : String),
      ((urlparse href).scheme = "http" ∨ (urlparse href).scheme = "https") →
      (urlparse href).netloc ≠ "" →
      strHasSub (urlparse href).netloc "fcgestaoestrategica.com.br" = false →
      rewrite_href_migrar m href = href ∧ rewrite_href_restore s href = href) ∧
    (∀ (m : List (String × String)) (href sl dest : String),
      strStarts href "#" = false → strStarts href "mailto:" = false →
      strStarts href "tel:" = false → strStarts href "javascript:" = false →
      ((urlparse href).scheme = "http" ∨ (urlparse href).scheme = "https") →
      ((urlparse href).netloc = "" ∨
        strHasSub (urlparse href).netloc "fcgestaoestrategica.com.br" = true) →
      slug_from_url href = some sl → sl ≠ "" → List.lookup sl m = some dest →
      rewrite_href_migrar m href = dest) ∧
    (∀ (m : List (String × String)) (href sl dest : String),
      strStarts href "#" = false → strStarts href "mailto:" = false →
      strStarts href "tel:" = false → strStarts href "javascript:" = false →
      ¬ ((urlparse href).scheme = "http" ∨ (urlparse href).scheme = "https") →
      strStarts href "/" = true →
      slug_from_url href = some sl → sl ≠ "" → List.lookup sl m = some dest →
      rewrite_href_migrar m href = dest) ∧
    (∀ (s : List String) (href : String),
      strStarts href "#" = false → strStarts href "mailto:" = false →
      strStarts href "tel:" = false →
      ((urlparse href).scheme = "http" ∨ (urlparse href).scheme = "https") →
      strHasSub (urlparse href).netloc "fcgestaoestrategica.com.br" = true →
      (s.contains (restore_slug_of href) = true →
        rewrite_href_restore s href = "artigo-" ++ restore_slug_of href ++ ".html") ∧
      (∀ page, s.contains (restore_slug_of href) = false →
        List.lookup (restore_slug_of href) legacy_pages = some page →
        rewrite_href_restore s href = page)) ∧
    (∀ (s : List String) (href : String),
      strStarts href "#" = false → strStarts href "mailto:" = false →
      strStarts href "tel:" = false →
      ¬ (((urlparse href).scheme = "http" ∨ (urlparse href).scheme = "https") ∧
        strHasSub (urlparse href).netloc "fcgestaoestrategica.com.br" = true) →
      strStarts href "/blog" = true →
      rewrite_href_restore s href = "blog.html") := by
  refine ⟨?_, ?_, ?_, ?_, ?_⟩
  · intro m s href hsch hn hsub
    have hsub' : ¬ strHasSub (urlparse href).netloc
        "fcgestaoestrategica.com.br" = true := by rw [hsub]; decide
    constructor
    · by_cases hspec : (strStarts href "#" || strStarts href "mailto:" ||
          strStarts href "tel:" || strStarts href "javascript:") = true
      · simp only [rewrite_href_migrar]
        rw [if_pos hspec]
      · simp only [rewrite_href_migrar]
        rw [if_neg hspec, if_pos hsch, if_pos (And.intro hn hsub')]
    · have hroot : strStarts href "/" = false := by
        by_contra hx
        have hx' : strStarts href "/" = true := by simpa using hx
        have := urlparse_scheme_of_root href hx'
        rcases hsch with h | h <;> rw [this] at h <;> exact absurd h (by decide)
      have hblog : strStarts href "/blog" = false := by
        by_contra hx
        have hx' : strStarts href "/blog" = true := by simpa using hx
        rw [strStarts_blog_root href hx'] at hroot
        exact absurd hroot (by decide)
      have hcond : ¬ (((urlparse href).scheme = "http" ∨
          (urlparse href).scheme = "https") ∧
          strHasSub (urlparse href).netloc
            "fcgestaoestrategica.com.br" = true) :=
        fun hcon => hsub' hcon.2
      by_cases hspec : (strStarts href "#" || strStarts href "mailto:" ||
          strStarts href "tel:") = true
      · simp only [rewrite_href_restore]
        rw [if_pos hspec]
      · simp only [rewrite_href_restore]
        rw [if_neg hspec, if_neg hcond]
        dsimp only
        rw [hblog, if_neg (by decide)]
  · intro m href sl dest h1 h2 h3 h4 hsch hdom hslug hne hmap
    have hspec : ¬ (strStarts href "#" || strStarts href "mailto:" ||
        strStarts href "tel:" || strStarts href "javascript:") = true := by
      simp [h1, h2, h3, h4]
    have hnet : ¬ ((urlparse href).netloc ≠ "" ∧
        ¬ strHasSub (urlparse href).netloc
          "fcgestaoestrategica.com.br" = true) := by
      rcases hdom with h | h
      · exact fun hcon => hcon.1 h
      · exact fun hcon => hcon.2 h
    simp only [rewrite_href_migrar]
    rw [if_neg hspec, if_pos hsch, if_neg hnet, hslug]
    dsimp only
    rw [if_pos hne, hmap]
  · intro m href sl dest h1 h2 h3 h4 hsch hroot hslug hne hmap
    have hspec : ¬ (strStarts href "#" || strStarts href "mailto:" ||
        strStarts href "tel:" || strStarts href "javascript:") = true := by
      simp [h1, h2, h3, h4]
    simp only [rewrite_href_migrar]
    rw [if_neg hspec, if_neg hsch, if_pos hroot, hslug]
    dsimp only
    rw [if_pos hne, hmap]
  · intro s href h1 h2 h3 hsch hsub
    have hspec : ¬ (strStarts href "#" || strStarts href "mailto:" ||
        strStarts href "tel:") = true := by
      simp [h1, h2, h3]
    constructor
    · intro hmem
      simp only [rewrite_href_restore]
      rw [if_neg hspec, if_pos (And.intro hsch hsub), if_pos hmem]
    · intro page hmem hpage
      simp only [rewrite_href_restore]
      rw [if_neg hspec, if_pos (And.intro hsch hsub),
        if_neg (by rw [hmem]; decide), hpage]
  · intro s href h1 h2 h3 hcond hblog
    have hspec : ¬ (strStarts href "#" || strStarts href "mailto:" ||
        strStarts href "tel:") = true := by
      simp [h1, h2, h3]
    simp only [rewrite_href_restore]
    rw [if_neg hspec, if_neg hcond]
    dsimp only
    rw [if_pos hblog]

/-- Witness for c5_link_rewriter_amended across its clauses at concrete
anchors. -/
theorem c5_link_rewriter_amended_witness :
    (rewrite_href_migrar [("meu-artigo", "artigo-meu-artigo.html")]
        "https://outrosite.com.br/meu-artigo/" =
      "https://outrosite.com.br/meu-artigo/") ∧
    (rewrite_href_migrar [("meu-artigo", "artigo-meu-artigo.html")]
        "https://www.fcgestaoestrategica.com.br/meu-artigo/" =
      "artigo-meu-artigo.html") ∧
    (rewrite_href_restore ["meu-artigo"]
        "https://www.fcgestaoestrategica.com.br/contato/" = "contato.html") ∧
    (rewrite_href_restore ["meu-artigo"] "/blog/pagina/2/" = "blog.html") := by
  refine ⟨?_, ?_, ?_, ?_⟩
  · exact ((c5_link_rewriter_amended.1 [("meu-artigo", "artigo-meu-artigo.html")]
      ["meu-artigo"] "https://outrosite.com.br/meu-artigo/"
      (Or.inr (by rfl)) (by decide) (by rfl))).1
  · exact c5_link_rewriter_amended.2.1 [("meu-artigo", "artigo-meu-artigo.html")]
      "https://www.fcgestaoestrategica.com.br/meu-artigo/" "meu-artigo"
      "artigo-meu-artigo.html" (by decide) (by decide) (by decide) (by decide)
      (Or.inr (by rfl)) (Or.inr (by rfl)) (by rfl) (by decide) (by rfl)
  · exact (c5_link_rewriter_amended.2.2.2.1 ["meu-artigo"]
      "https://www.fcgestaoestrategica.com.br/contato/"
      (by decide) (by decide) (by decide) (Or.inr (by rfl)) (by rfl)).2
      "contato.html" (by rfl) (by rfl)
  · exact c5_link_rewriter_amended.2.2.2.2 ["meu-artigo"] "/blog/pagina/2/"
      (by decide) (by decide) (by decide)
      (by
        intro hcon
        have := urlparse_scheme_of_root "/blog/pagina/2/" (by decide)
        rcases hcon.1 with h | h <;> rw [this] at h <;> exact absurd h (by decide))
      (by decide)


/-! ## C8: pick_image_url from scripts/migrar_blog_fcge.py -/

def BASE_URL : String := "https://www.fcgestaoestrategica.com.br"

/-- The attribute-priority loop of pick_image_url: the first present,
non-empty attribute value that does not start with "data:" is returned
joined against BASE_URL. -/
def pickAttrLoop (a : List (String × String)) : List String → Option String
  | [] => none
  | k :: ks =>
    match List.lookup k a with
    | some v =>
      if v ≠ "" ∧ strStarts v "data:" = false then some (urljoin BASE_URL v)
      else pickAttrLoop a ks
    | none => pickAttrLoop a ks

/-- Python `x or y` on optional strings (absent and "" are falsy). -/
def orTruthy (x : Option String) (y : Option String) : Option String :=
  match x with
  | some v => if v ≠ "" then some v else y
  | none => y

/-- srcset.split(",")[0].strip().split(" ")[0] from pick_image_url. -/
def firstSrcsetUrl (srcset : String) : String :=
  ((pySplitChar ' ' (pyStrip ((pySplitChar ',' srcset).headD ""))).headD "")

/-- pick_image_url from scripts/migrar_blog_fcge.py, over the img tag's
attribute list. -/
def pick_image_url (a : List (String × String)) : Option String :=
  match pickAttrLoop a
      ["data-src", "data-lazy-src", "nitro-lazy-src", "data-original",
       "src"] with
  | some r => some r
  | none =>
    match orTruthy (List.lookup "srcset" a)
        (orTruthy (List.lookup "nitro-lazy-srcset" a)
          (orTruthy (List.lookup "data-srcset" a) none)) with
    | none => none
    | some ss =>
      if firstSrcsetUrl ss ≠ "" ∧ strStarts (firstSrcsetUrl ss) "data:" = false
      then some (urljoin BASE_URL (firstSrcsetUrl ss))
      else none

/-- The claim's reading of pick_image_url: the raw first usable value among
the five lazy-load attributes, else the first usable srcset URL, with no
base join. -/
def claimPickRaw (a : List (String × String)) : Option String :=
  match ((["data-src", "data-lazy-src", "nitro-lazy-src", "data-original",
      "src"].filterMap (fun k => List.lookup k a)).find?
      (fun v => !(v == "") && !(strStarts v "data:"))) with
  | some v => some v
  | none =>
    match orTruthy (List.lookup "srcset" a)
        (orTruthy (List.lookup "nitro-lazy-srcset" a)
          (orTruthy (List.lookup "data-srcset" a) none)) with
    | none => none
    | some ss =>
      if firstSrcsetUrl ss ≠ "" ∧ strStarts (firstSrcsetUrl ss) "data:" = false
      then some (firstSrcsetUrl ss)
      else none

theorem strData_append (s t : String) : (s ++ t).data = s.data ++ t.data := by
  cases s
  cases t
  rfl

theorem startsWithL_refl_append (p ys : List Char) :
    startsWithL (p ++ ys) p = true := by
  induction p with
  | nil => simp [startsWithL]
  | cons c cs ih => simp [startsWithL, ih]

theorem startsWithL_append_of (xs ys p : List Char)
    (h : startsWithL xs p = true) : startsWithL (xs ++ ys) p = true := by
  induction p generalizing xs with
  | nil => simp [startsWithL]
  | cons c cs ih =>
    cases xs with
    | nil => exact absurd h (by simp [startsWithL])
    | cons x xt =>
      simp [startsWithL] at h ⊢
      exact ⟨h.1, ih xt h.2⟩

theorem strStarts_self_append (s t : String) : strStarts (s ++ t) s = true := by
  show startsWithL (s ++ t).data s.data = true
  rw [strData_append]
  exact startsWithL_refl_append _ _

theorem strStarts_append_of (s t p : String) (h : strStarts s p = true) :
    strStarts (s ++ t) p = true := by
  show startsWithL (s ++ t).data p.data = true
  rw [strData_append]
  exact startsWithL_append_of _ _ _ h

theorem strStarts_urlunsplit (s n u q f : String) (h : s ≠ "") :
    strStarts (urlunsplit s n u q f) (s ++ ":") = true := by
  simp only [urlunsplit]
  rw [if_pos h]
  split_ifs <;>
    first
      | exact strStarts_self_append _ _
      | exact strStarts_append_of _ _ _ (strStarts_self_append _ _)
      | exact strStarts_append_of _ _ _
          (strStarts_append_of _ _ _ (strStarts_self_append _ _))
      | exact strStarts_append_of _ _ _ (strStarts_append_of _ _ _
          (strStarts_append_of _ _ _ (strStarts_self_append _ _)))
      | exact strStarts_append_of _ _ _ (strStarts_append_of _ _ _
          (strStarts_append_of _ _ _
            (strStarts_append_of _ _ _ (strStarts_self_append _ _))))

theorem strStarts_urlunparse_https (n u p q f : String) :
    strStarts (urlunparse "https" n u p q f) "https:" = true := by
  have h := strStarts_urlunsplit "https" n
    (if p ≠ "" then u ++ ";" ++ p else u) q f (by decide)
  rw [show (("https" : String) ++ ":") = "https:" from rfl] at h
  simpa only [urlunparse] using h

theorem urljoin_base_shape (url : String) (h : url ≠ "") :
    urljoin BASE_URL url = url ∨
    strStarts (urljoin BASE_URL url) "https:" = true := by
  simp only [urljoin]
  rw [if_neg (show ¬ BASE_URL = "" by decide), if_neg h]
  have hb : (urlparseWith BASE_URL "").scheme = "https" := rfl
  rw [hb]
  by_cases hbr : (urlparseWith url "https").scheme ≠ "https" ∨
      ¬ usesRelative.contains (urlparseWith url "https").scheme = true
  · rw [if_pos hbr]
    exact Or.inl rfl
  · rw [if_neg hbr]
    right
    have hsch : (urlparseWith url "https").scheme = "https" :=
      not_not.mp (not_or.mp hbr).1
    rw [hsch]
    split
    · exact strStarts_urlunparse_https _ _ _ _ _
    · split_ifs <;> exact strStarts_urlunparse_https _ _ _ _ _

theorem starts_https_not_data (r : String)
    (h : strStarts r "https:" = true) : strStarts r "data:" = false := by
  have h' : startsWithL r.data ("https:".data) = true := h
  rw [show ("https:".data) = ['h', 't', 't', 'p', 's', ':'] from rfl] at h'
  show startsWithL r.data ("data:".data) = false
  rw [show ("data:".data) = ['d', 'a', 't', 'a', ':'] from rfl]
  cases hd : r.data with
  | nil => rw [hd] at h'; exact absurd h' (by decide)
  | cons c cs =>
    rw [hd] at h'
    simp [startsWithL] at h'
    simp [startsWithL, h'.1]

theorem pickAttrLoop_eq (a : List (String × String)) : ∀ ks : List String,
    pickAttrLoop a ks =
      ((ks.filterMap (fun k => List.lookup k a)).find?
        (fun v => !(v == "") && !(strStarts v "data:"))).map
        (urljoin BASE_URL)
  | [] => rfl
  | k :: ks => by
    cases hk : List.lookup k a with
    | none =>
      simp [pickAttrLoop, hk, List.filterMap_cons, pickAttrLoop_eq a ks]
    | some v =>
      by_cases hv : v ≠ "" ∧ strStarts v "data:" = false
      · have hb : (!(v == "") && !(strStarts v "data:")) = true := by
          simp [hv.1, hv.2]
        simp [pickAttrLoop, hk, List.filterMap_cons, List.find?, hb, hv]
      · have hb : (!(v == "") && !(strStarts v "data:")) = false := by
          rcases not_and_or.mp hv with hx | hx
          · have hx' : v = "" := not_not.mp hx
            simp [hx']
          · have hx' : strStarts v "data:" = true := by
              cases hy : strStarts v "data:" with
              | true => rfl
              | false => exact absurd hy hx
            simp [hx']
        simp [pickAttrLoop, hk, List.filterMap_cons, List.find?, hb, hv,
          pickAttrLoop_eq a ks]

theorem pickAttrLoop_not_data (a : List (String × String)) :
    ∀ (ks : List String) (r : String),
      pickAttrLoop a ks = some r → strStarts r "data:" = false
  | [], r, h => absurd h (by simp [pickAttrLoop])
  | k :: ks, r, h => by
    rw [pickAttrLoop] at h
    cases hk : List.lookup k a with
    | none =>
      rw [hk] at h
      dsimp only at h
      exact pickAttrLoop_not_data a ks r h
    | some v =>
      rw [hk] at h
      dsimp only at h
      by_cases hv : v ≠ "" ∧ strStarts v "data:" = false
      · rw [if_pos hv] at h
        have hr : urljoin BASE_URL v = r := by simpa using h
        rcases urljoin_base_shape v hv.1 with he | hs
        · rw [← hr, he]
          exact hv.2
        · rw [← hr]
          exact starts_https_not_data _ hs
      · rw [if_neg hv] at h
        exact pickAttrLoop_not_data a ks r h

/-- C8 counterexample: pick_image_url does not return the raw first usable
attribute value; a relative src is joined against BASE_URL. -/
theorem c8_pick_image_url_counterexample :
    pick_image_url [("src", "imagens/foto.jpg")] =
      some "https://www.fcgestaoestrategica.com.br/imagens/foto.jpg" ∧
    pick_image_url [("src", "imagens/foto.jpg")] ≠
      some "imagens/foto.jpg" := by
  constructor
  · rfl
  · intro h
    rw [show pick_image_url [("src", "imagens/foto.jpg")] =
        some "https://www.fcgestaoestrategica.com.br/imagens/foto.jpg"
      from rfl] at h
    exact absurd h (by decide)

/-- C8 (amended): pick_image_url selects exactly the first usable value in
the claimed priority order (five lazy-load attributes, then the first URL
of the srcset chain), but returns that value urljoin-ed against BASE_URL;
and every returned URL satisfies that it does not start with "data:". -/
theorem c8_pick_image_url_amended (a : List (String × String)) :
    pick_image_url a = (claimPickRaw a).map (urljoin BASE_URL) ∧
    (∀ r, pick_image_url a = some r → strStarts r "data:" = false) := by
  constructor
  · cases hf : (["data-src", "data-lazy-src", "nitro-lazy-src",
        "data-original", "src"].filterMap (fun k => List.lookup k a)).find?
        (fun v => !(v == "") && !(strStarts v "data:")) with
    | some v =>
      simp [pick_image_url, claimPickRaw, pickAttrLoop_eq a, hf]
    | none =>
      cases hc : orTruthy (List.lookup "srcset" a)
          (orTruthy (List.lookup "nitro-lazy-srcset" a)
            (orTruthy (List.lookup "data-srcset" a) none)) with
      | none =>
        simp [pick_image_url, claimPickRaw, pickAttrLoop_eq a, hf, hc]
      | some ss =>
        by_cases hcond : firstSrcsetUrl ss ≠ "" ∧
            strStarts (firstSrcsetUrl ss) "data:" = false
        · simp [pick_image_url, claimPickRaw, pickAttrLoop_eq a, hf, hc,
            hcond]
        · simp [pick_image_url, claimPickRaw, pickAttrLoop_eq a, hf, hc,
            hcond]
  · intro r hr
    simp only [pick_image_url] at hr
    cases hl : pickAttrLoop a ["data-src", "data-lazy-src",
        "nitro-lazy-src", "data-original", "src"] with
    | some x =>
      rw [hl] at hr
      have hx : x = r := by simpa using hr
      subst hx
      exact pickAttrLoop_not_data a _ _ hl
    | none =>
      rw [hl] at hr
      dsimp only at hr
      cases hc : orTruthy (List.lookup "srcset" a)
          (orTruthy (List.lookup "nitro-lazy-srcset" a)
            (orTruthy (List.lookup "data-srcset" a) none)) with
      | none =>
        rw [hc] at hr
        exact absurd hr (by simp)
      | some ss =>
        rw [hc] at hr
        dsimp only at hr
        by_cases hcond : firstSrcsetUrl ss ≠ "" ∧
            strStarts (firstSrcsetUrl ss) "data:" = false
        · rw [if_pos hcond] at hr
          have hrr : urljoin BASE_URL (firstSrcsetUrl ss) = r := by
            simpa using hr
          rcases urljoin_base_shape (firstSrcsetUrl ss) hcond.1 with he | hs
          · rw [← hrr, he]
            exact hcond.2
          · rw [← hrr]
            exact starts_https_not_data _ hs
        · rw [if_neg hcond] at hr
          exact absurd hr (by simp)

/-- Witness for c8_pick_image_url_amended: a data: URI in data-src is
skipped and the relative src is joined against BASE_URL, never starting
with "data:". -/
theorem c8_pick_image_url_amended_witness :
    pick_image_url [("data-src", "data:image/png;base64,AA"),
        ("src", "/img/a.jpg")] =
      (claimPickRaw [("data-src", "data:image/png;base64,AA"),
        ("src", "/img/a.jpg")]).map (urljoin BASE_URL) ∧
    strStarts "https://www.fcgestaoestrategica.com.br/img/a.jpg" "data:" =
      false := by
  refine ⟨(c8_pick_image_url_amended _).1, ?_⟩
  exact (c8_pick_image_url_amended
    [("data-src", "data:image/png;base64,AA"), ("src", "/img/a.jpg")]).2
    "https://www.fcgestaoestrategica.com.br/img/a.jpg" rfl


/-! ## C4: the three download collision policies -/

/-- The character class [<>:"/\\|?*] of safe_filename. -/
def sfBad (c : Char) : Bool :=
  c = '<' || c = '>' || c = ':' || c = '"' || c = '/' || c = '\\' ||
  c = '|' || c = '?' || c = '*'

/-- Collapse runs of dashes to a single dash, re.sub("-+", "-", s). -/
def collapseDashGo : Bool → List Char → List Char
  | _, [] => []
  | prevDash, c :: rest =>
    if c = '-' then
      if prevDash then collapseDashGo true rest
      else '-' :: collapseDashGo true rest
    else c :: collapseDashGo false rest

/-- safe_filename, identical in the three scripts. -/
def safe_filename (name : String) : String :=
  let s1 := (pyStrip name).data
  let s2 := s1.map (fun c => if sfBad c then '-' else c)
  let s3 := s2.map (fun c => if c = ' ' then '-' else c)
  let s4 := collapseDashGo false s3
  if s4 = [] then "imagem" else String.mk s4

/-- dest.exists() and dest.stat().st_size > 0 over the modelled files. -/
def existsPos (fs : List (String × Nat)) (p : String) : Bool :=
  match List.lookup p fs with
  | some n => decide (0 < n)
  | none => false

/-- The collision loop of download_image in scripts/migrar_blog_fcge.py:
while the candidate exists non-empty, retry with stem-counter-suffix. The
fuel the callers pass always exceeds the number of existing files. -/
def migrarLoop (fs : List (String × Nat)) (destDir : String) :
    Nat → Nat → String → String
  | 0, _, fname => fname
  | fuel + 1, counter, fname =>
    if existsPos fs (destDir ++ "/" ++ fname) then
      migrarLoop fs destDir fuel (counter + 1)
        (pyPathStem fname ++ "-" ++ toString counter ++ pyPathSuffix fname)
    else fname

/-- download_image from scripts/migrar_blog_fcge.py over a file-system and
fetch oracle: yields (result, whether a fetch happened, files, cache). -/
def migrar_download_image (fetch : String → Option String) (now : Nat)
    (fs : List (String × Nat)) (cache : List ((String × String) × String))
    (url slug : String) :
    Option String × Bool × List (String × Nat) ×
      List ((String × String) × String) :=
  if url = "" then (none, false, fs, cache)
  else
    match List.lookup (slug, url) cache with
    | some rel => (some rel, false, fs, cache)
    | none =>
      let filename0 := safe_filename (pyPathName (urlparse url).path)
      let filename :=
        if filename0 = "" ∨ filename0.data.contains '.' = false then
          "imagem-" ++ toString now ++ ".jpg"
        else filename0
      let destDir := "imagens/blog/" ++ slug
      let fname := migrarLoop fs destDir (fs.length + 1) 1 filename
      let destPath := destDir ++ "/" ++ fname
      match fetch url with
      | none => (none, true, fs, cache)
      | some content =>
        if content = "" then (none, true, fs, cache)
        else (some destPath, true, (destPath, content.length) :: fs,
          ((slug, url), destPath) :: cache)

/-- The destination path computed by download_image in
scripts/restore_article_content.py. -/
def restoreDest (now : Nat) (url slug : String) : String :=
  let filename0 := safe_filename (pyPathName (urlparse url).path)
  let filename :=
    if filename0 = "" ∨ filename0.data.contains '.' = false then
      "imagem-" ++ toString now ++ ".jpg"
    else filename0
  "imagens/blog/" ++ slug ++ "/" ++ filename

/-- download_image from scripts/restore_article_content.py: reuses an
existing non-empty destination, and answers the remote url itself when the
fetch raises. -/
def restore_download_image (get : String → Option String) (now : Nat)
    (fs : List (String × Nat)) (url slug : String) :
    Option String × Bool × List (String × Nat) :=
  if url = "" then (none, false, fs)
  else if strStarts url "imagens/" then (some url, false, fs)
  else
    let destPath := restoreDest now url slug
    if existsPos fs destPath then (some destPath, false, fs)
    else
      match get url with
      | some content => (some destPath, true, (destPath, content.length) :: fs)
      | none => (some url, true, fs)

/-- ensure_extension from scripts/sync_blog_single_page.py. -/
def ensure_extension (filename : String) (ctype : Option String) : String :=
  if filename.data.contains '.' then filename
  else
    match ctype with
    | none => filename ++ ".jpg"
    | some ct =>
      if ct = "" then filename ++ ".jpg"
      else if strHasSub ct "png" then filename ++ ".png"
      else if strHasSub ct "webp" then filename ++ ".webp"
      else if strHasSub ct "gif" then filename ++ ".gif"
      else filename ++ ".jpg"

/-- The pre-download destination path of download_asset in
scripts/sync_blog_single_page.py. -/
def syncDest (url slug : String) : String :=
  let name0 := pyPathName (urlparse url).path
  let filename := safe_filename (if name0 ≠ "" then name0 else "imagem")
  "assets/blog/" ++ slug ++ "/" ++ filename

/-- download_asset from scripts/sync_blog_single_page.py; the oracle yields
body bytes and content type, none for an exception. -/
def sync_download_asset (get : String → Option (String × Option String))
    (fs : List (String × Nat)) (url slug : String) :
    Option String × Bool × List (String × Nat) :=
  if url = "" then (none, false, fs)
  else
    let destPath := syncDest url slug
    if existsPos fs destPath then (some destPath, false, fs)
    else
      match get url with
      | none => (none, true, fs)
      | some dc =>
        let fname2 := ensure_extension (pyPathName destPath) dc.2
        let dest2 := "assets/blog/" ++ slug ++ "/" ++ fname2
        (some dest2, true, (dest2, dc.1.length) :: fs)

theorem lookup_mem_keys : ∀ (fs : List (String × Nat)) (p : String) (n : Nat),
    List.lookup p fs = some n → p ∈ fs.map Prod.fst
  | [], p, n, h => by simp [List.lookup] at h
  | (k, v) :: tl, p, n, h => by
    rw [List.lookup] at h
    cases hb : (p == k) with
    | true =>
      have hpk : p = k := eq_of_beq hb
      simp [hpk]
    | false =>
      rw [hb] at h
      dsimp only at h
      simp only [List.map_cons, List.mem_cons]
      exact Or.inr (lookup_mem_keys tl p n h)

theorem existsPos_mem_keys {fs : List (String × Nat)} {p : String}
    (h : existsPos fs p = true) : p ∈ fs.map Prod.fst := by
  rw [existsPos] at h
  cases hl : List.lookup p fs with
  | none =>
    rw [hl] at h
    simp at h
  | some n => exact lookup_mem_keys fs p n hl

theorem pyPathSuffix_len_le (f : String) :
    (pyPathSuffix f).data.length ≤ f.data.length := by
  simp only [pyPathSuffix]
  split
  · simp
  · split_ifs with hc
    · show (f.data.drop _).length ≤ f.data.length
      rw [List.length_drop]
      omega
    · simp

theorem pyPathStem_len (f : String) :
    (pyPathStem f).data.length =
      f.data.length - (pyPathSuffix f).data.length := by
  simp only [pyPathStem]
  show (f.data.take _).length = _
  rw [List.length_take]
  exact Nat.min_eq_left (Nat.sub_le _ _)

theorem stepName_lt (destDir fname : String) (c : Nat) :
    (destDir ++ "/" ++ fname).data.length <
      (destDir ++ "/" ++ (pyPathStem fname ++ "-" ++ toString c ++
        pyPathSuffix fname)).data.length := by
  have h1 := pyPathStem_len fname
  have h2 := pyPathSuffix_len_le fname
  simp only [strData_append, List.length_append, List.length_cons,
    List.length_nil]
  omega

theorem migrarLoop_free (fs : List (String × Nat)) (destDir : String) :
    ∀ (fuel counter : Nat) (fname : String) (seen : List String),
      (∀ p ∈ seen, existsPos fs p = true) →
      seen.Nodup →
      (∀ p ∈ seen, p.data.length < (destDir ++ "/" ++ fname).data.length) →
      fs.length + 1 ≤ seen.length + fuel →
      existsPos fs
        (destDir ++ "/" ++ migrarLoop fs destDir fuel counter fname) = false
  | 0, counter, fname, seen, hall, hnd, hlt, hfuel => by
    exfalso
    have hsub : seen ⊆ fs.map Prod.fst := fun p hp =>
      existsPos_mem_keys (hall p hp)
    have hle := (hnd.subperm hsub).length_le
    rw [List.length_map] at hle
    omega
  | fuel + 1, counter, fname, seen, hall, hnd, hlt, hfuel => by
    rw [migrarLoop]
    by_cases hex : existsPos fs (destDir ++ "/" ++ fname) = true
    · rw [if_pos hex]
      exact migrarLoop_free fs destDir fuel (counter + 1) _
        ((destDir ++ "/" ++ fname) :: seen)
        (fun p hp => by
          rcases List.mem_cons.mp hp with h | h
          · rw [h]; exact hex
          · exact hall p h)
        (List.nodup_cons.mpr
          ⟨fun hmem => absurd (hlt _ hmem) (lt_irrefl _), hnd⟩)
        (fun p hp => by
          rcases List.mem_cons.mp hp with h | h
          · rw [h]; exact stepName_lt destDir fname counter
          · exact Nat.lt_trans (hlt p h) (stepName_lt destDir fname counter))
        (by simp only [List.length_cons]; omega)
    · rw [if_neg hex]
      cases hb : existsPos fs (destDir ++ "/" ++ fname) with
      | false => rfl
      | true => exact absurd hb hex

/-- C4 counterexample: migrar's download_image does not reuse an existing
non-empty destination; it fetches anyway and writes to a suffixed name. -/
theorem c4_collision_counterexample :
    (migrar_download_image (fun _ => some "xx") 7
        [("imagens/blog/s/a.jpg", 5)] [] "https://exemplo.com/fotos/a.jpg"
        "s").1 = some "imagens/blog/s/a-1.jpg" ∧
    (migrar_download_image (fun _ => some "xx") 7
        [("imagens/blog/s/a.jpg", 5)] [] "https://exemplo.com/fotos/a.jpg"
        "s").2.1 = true ∧
    some "imagens/blog/s/a-1.jpg" ≠ some "imagens/blog/s/a.jpg" := by
  exact ⟨rfl, rfl, by decide⟩

/-- C4 (amended): restore and sync reuse an existing non-empty destination
without any fetch or file-system change; migrar never reuses, but every
path it actually downloads to is free of existing non-empty files (numeric
suffixing never overwrites). -/
theorem c4_collision_amended :
    (∀ (fetch : String → Option String) (now : Nat)
        (fs : List (String × Nat))
        (cache : List ((String × String) × String)) (url slug p : String),
      (migrar_download_image fetch now fs cache url slug).2.1 = true →
      (migrar_download_image fetch now fs cache url slug).1 = some p →
      existsPos fs p = false) ∧
    (∀ (get : String → Option String) (now : Nat)
        (fs : List (String × Nat)) (url slug : String),
      url ≠ "" → strStarts url "imagens/" = false →
      existsPos fs (restoreDest now url slug) = true →
      restore_download_image get now fs url slug =
        (some (restoreDest now url slug), false, fs)) ∧
    (∀ (get : String → Option (String × Option String))
        (fs : List (String × Nat)) (url slug : String),
      url ≠ "" →
      existsPos fs (syncDest url slug) = true →
      sync_download_asset get fs url slug =
        (some (syncDest url slug), false, fs)) := by
  refine ⟨?_, ?_, ?_⟩
  · intro fetch now fs cache url slug p hfet hres
    simp only [migrar_download_image] at hfet hres
    by_cases hu : url = ""
    · rw [if_pos hu] at hfet
      simp at hfet
    · rw [if_neg hu] at hfet hres
      cases hc : List.lookup (slug, url) cache with
      | some rel =>
        rw [hc] at hfet
        simp at hfet
      | none =>
        rw [hc] at hres
        dsimp only at hres
        cases hf : fetch url with
        | none =>
          rw [hf] at hres
          simp at hres
        | some content =>
          rw [hf] at hres
          dsimp only at hres
          by_cases hct : content = ""
          · rw [if_pos hct] at hres
            simp at hres
          · rw [if_neg hct] at hres
            dsimp only at hres
            rw [← Option.some.inj hres]
            exact migrarLoop_free fs ("imagens/blog/" ++ slug)
              (fs.length + 1) 1 _ []
              (fun q hq => absurd hq (List.not_mem_nil q))
              List.nodup_nil
              (fun q hq => absurd hq (List.not_mem_nil q))
              (by simp)
  · intro get now fs url slug hu h2 hex
    simp only [restore_download_image]
    rw [if_neg hu, h2]
    rw [if_neg (show ¬ false = true by decide)]
    rw [if_pos hex]
  · intro get fs url slug hu hex
    simp only [sync_download_asset]
    rw [if_neg hu]
    rw [if_pos hex]

/-- Witness for c4_collision_amended at concrete downloads: migrar's
written path avoids the colliding name, restore and sync reuse theirs. -/
theorem c4_collision_amended_witness :
    existsPos [("imagens/blog/s/a.jpg", 5)] "imagens/blog/s/a-1.jpg" =
      false ∧
    restore_download_image (fun _ => none) 0 [("imagens/blog/s/b.jpg", 3)]
      "https://exemplo.com/fotos/b.jpg" "s" =
      (some "imagens/blog/s/b.jpg", false, [("imagens/blog/s/b.jpg", 3)]) ∧
    sync_download_asset (fun _ => none) [("assets/blog/s/c.png", 4)]
      "https://exemplo.com/fotos/c.png" "s" =
      (some "assets/blog/s/c.png", false, [("assets/blog/s/c.png", 4)]) := by
  refine ⟨?_, ?_, ?_⟩
  · exact c4_collision_amended.1 (fun _ => some "xx") 7
      [("imagens/blog/s/a.jpg", 5)] [] "https://exemplo.com/fotos/a.jpg"
      "s" "imagens/blog/s/a-1.jpg" rfl rfl
  · exact c4_collision_amended.2.1 (fun _ => none) 0
      [("imagens/blog/s/b.jpg", 3)] "https://exemplo.com/fotos/b.jpg" "s"
      (by decide) rfl rfl
  · exact c4_collision_amended.2.2 (fun _ => none)
      [("assets/blog/s/c.png", 4)] "https://exemplo.com/fotos/c.png" "s"
      (by decide) rfl


/-! ## C10: the h1-demotion passes of clean_content_html -/

/-- Python regex word character, ASCII part. -/
def isWordChar (c : Char) : Bool :=
  c.isAlpha || c.isDigit || c = '_'

/-- The [^>]* '>' tail of the h1 opening-tag pattern: consume to the first
closing angle bracket, none when there is none. -/
def scanToGt : List Char → Option (List Char)
  | [] => none
  | c :: rest => if c = '>' then some rest else scanToGt rest

/-- Match of the pattern <h1(\b[^>]*)> (h case-insensitive) at the head of
the text, returning the text after the closing angle bracket. -/
def h1OpenMatch : List Char → Option (List Char)
  | '<' :: h :: '1' :: rest =>
    if h = 'h' ∨ h = 'H' then
      match rest with
      | [] => none
      | c :: _ => if isWordChar c then none else scanToGt rest
    else none
  | _ => none

/-- The first h1 re.sub of clean_content_html in
scripts/sync_blog_single_page.py: the replacement raw string r"<h2\\1>"
escapes its backslash, so every match is replaced by the literal text
<h2\1>, not by <h2> with the captured attributes.  Fuel-bounded structural scan;
callers pass the text length, which always suffices. -/
def subH1OpenF : Nat → List Char → List Char
  | 0, l => l
  | _ + 1, [] => []
  | fuel + 1, c :: rest =>
    match h1OpenMatch (c :: rest) with
    | some after =>
      '<' :: 'h' :: '2' :: '\\' :: '1' :: '>' :: subH1OpenF fuel after
    | none => c :: subH1OpenF fuel rest

/-- Match of </h1> (h case-insensitive) at the head of the text. -/
def closeH1Match : List Char → Option (List Char)
  | '<' :: '/' :: h :: '1' :: '>' :: rest =>
    if h = 'h' ∨ h = 'H' then some rest else none
  | _ => none

/-- The second h1 re.sub of clean_content_html: </h1> becomes </h2>. -/
def subH1CloseF : Nat → List Char → List Char
  | 0, l => l
  | _ + 1, [] => []
  | fuel + 1, c :: rest =>
    match closeH1Match (c :: rest) with
    | some after => '<' :: '/' :: 'h' :: '2' :: '>' :: subH1CloseF fuel after
    | none => c :: subH1CloseF fuel rest

/-- The two h1-demotion re.sub lines of clean_content_html in
scripts/sync_blog_single_page.py, in source order. -/
def demote_h1_tags (s : String) : String :=
  let l1 := subH1OpenF s.data.length s.data
  String.mk (subH1CloseF l1.length l1)

/-- C10: clean_content_html does not demote an h1 opening tag to an h2
keeping its attributes: the replacement raw string escapes the backslash,
so the opening tag becomes the literal text <h2\1> (attributes lost, a
stray backslash-one inserted); only the closing tag becomes </h2>. -/
theorem c10_h1_demotion_bug :
    demote_h1_tags "<h1 class=\"x\">Ola</h1>" = "<h2\\1>Ola</h2>" ∧
    demote_h1_tags "<h1 class=\"x\">Ola</h1>" ≠
      "<h2 class=\"x\">Ola</h2>" := by
  exact ⟨rfl, by decide⟩


/-! ## C9: the per-page batch loops of migrar_blog_fcge.py main and
fix_article_layout.py main -/

/-- The per-page loop shared by main in scripts/migrar_blog_fcge.py and
scripts/fix_article_layout.py: the page body (the try block) is an oracle
that succeeds or raises a reason; a raise appends a report entry and the
loop continues with the next page. -/
def batchLoop {α : Type} (step : α → Except String Unit) (name : α → String) :
    List α → Nat → List (String × String) → Nat × List (String × String)
  | [], okCount, failures => (okCount, failures)
  | p :: rest, okCount, failures =>
    match step p with
    | .ok _ => batchLoop step name rest (okCount + 1) failures
    | .error e => batchLoop step name rest okCount (failures ++ [(name p, e)])

/-- The batch phase of both mains: run the loop from an empty report, then
write the report file unconditionally (the Bool). -/
def run_batch {α : Type} (step : α → Except String Unit) (name : α → String)
    (pages : List α) : (Nat × List (String × String)) × Bool :=
  (batchLoop step name pages 0 [], true)

theorem batchLoop_spec {α : Type} (step : α → Except String Unit)
    (name : α → String) :
    ∀ (pages : List α) (okCount : Nat) (failures : List (String × String)),
      batchLoop step name pages okCount failures =
        (okCount + pages.countP (fun p => match step p with
            | .ok _ => true
            | .error _ => false),
         failures ++ pages.filterMap (fun p => match step p with
            | .error e => some (name p, e)
            | .ok _ => none))
  | [], okCount, failures => by simp [batchLoop]
  | p :: rest, okCount, failures => by
    cases hs : step p with
    | ok u =>
      simp [batchLoop, hs, batchLoop_spec step name rest, List.countP_cons]
      omega
    | error e =>
      simp [batchLoop, hs, batchLoop_spec step name rest, List.countP_cons]

theorem batchCountSplit {α : Type} (step : α → Except String Unit)
    (name : α → String) :
    ∀ pages : List α,
      pages.countP (fun p => match step p with
          | .ok _ => true
          | .error _ => false) +
        (pages.filterMap (fun p => match step p with
          | .error e => some (name p, e)
          | .ok _ => none)).length = pages.length
  | [] => by simp
  | p :: rest => by
    have ih := batchCountSplit step name rest
    cases hs : step p <;> simp [hs, List.countP_cons] <;> omega

/-- C9: in the batch loops, a page failure is recorded and never aborts the
rest: the report file is always written, successes plus failures account
for every page, and the failure list holds exactly the failing pages in
order with their reasons. -/
theorem c9_batch_isolation {α : Type} (step : α → Except String Unit)
    (name : α → String) (pages : List α) :
    (run_batch step name pages).2 = true ∧
    (run_batch step name pages).1.1 +
      (run_batch step name pages).1.2.length = pages.length ∧
    (run_batch step name pages).1.2 =
      pages.filterMap (fun p => match step p with
        | .error e => some (name p, e)
        | .ok _ => none) := by
  refine ⟨rfl, ?_, ?_⟩
  · show (batchLoop step name pages 0 []).1 +
      (batchLoop step name pages 0 []).2.length = pages.length
    rw [batchLoop_spec step name pages 0 []]
    simpa using batchCountSplit step name pages
  · show (batchLoop step name pages 0 []).2 = _
    rw [batchLoop_spec step name pages 0 []]
    simp

end FCGE
